import Mathlib

/-!
The bgc paginated query-result iterator and its wire-value decoder.

A shallow embedding of `query_iterator.go`: the recursive decoder
(`unwrapValueIfNeeded`, `toValue`) and the paging iterator
(`HasNext`, `Next`, `fetchPage`, `GetColumns`, `NewQueryIterator`).

Modelling conventions.

* A Go `interface{}` holding decoded JSON is a `Value`: a literal, a
  `[]interface{}` (`Value.slice`) or a `map[string]interface{}` (`Value.map`).
  A Go map is represented by the list of its entries in insertion order;
  reading a key takes the first entry with that key and writing a key
  replaces the entry when the key is present and appends it otherwise.
* A Go panic is an explicit result (`Panic`), distinct from a returned `error`.
* `uint64` fields are natural numbers reduced modulo `2 ^ 64` at every
  increment; `int` is the 64-bit signed integer.
* Pointers stored in slices (`*TableRow`, `*TableCell`, `*TableFieldSchema`)
  are taken to be non-nil; the two pointers the code tests or replaces
  (`schema`, `Fields`) are options.
* The remote service is a parameter of the model: a function from the requests
  made so far and the current request to a response or an error.  The iterator
  records the requests it made in the ghost field `calls`.
* `toolbox.ProcessSliceWithIndex` (an external library) visits the items of a
  `[]interface{}` in order with their index; on a value that is no slice it
  aborts, which is the panic `notASlice`.
* `GetServiceAndContextForManager` and `queryTask.run` are collaborators of
  `NewQueryIterator` outside this file; their results are the fields of
  `Manager`.
-/

namespace Bgc

/-! ## Wire values -/

/-- Literals that are neither a sequence nor a string-keyed container. -/
inductive Atom where
  | null
  | bool (b : Bool)
  | num (n : Int)
  | str (s : String)
  deriving DecidableEq, Repr

/-- A Go `interface{}` as produced by JSON decoding. -/
inductive Value where
  | lit (a : Atom)
  | slice (items : List Value)
  | map (entries : List (String × Value))
  deriving Repr

/-- Reading `m[key]` with the comma-ok form: the first entry under `key`. -/
def mapGet (key : String) : List (String × Value) → Option Value
  | [] => none
  | (k, v) :: rest => if k = key then some v else mapGet key rest

/-- Writing `m[key] = v`: replace the entry when present, append otherwise. -/
def mapSet (key : String) (v : Value) : List (String × Value) → List (String × Value)
  | [] => [(key, v)]
  | (k, w) :: rest => if k = key then (k, v) :: rest else (k, w) :: mapSet key v rest

/-! ## Schema -/

/-- The part of `bigquery.TableFieldSchema` the code reads: `Name` and `Fields`
(`none` is the nil slice). -/
inductive TableFieldSchema where
  | mk (Name : String) (Fields : Option (List TableFieldSchema))
  deriving Repr

/-- Field `Name`. -/
def TableFieldSchema.Name : TableFieldSchema → String
  | .mk n _ => n

/-- Field `Fields`; `none` is nil. -/
def TableFieldSchema.Fields : TableFieldSchema → Option (List TableFieldSchema)
  | .mk _ fs => fs

/-- The ways the decoder and the iterator can abort. -/
inductive Panic where
  | shouldNotBeHere (value : Value)
  | indexOutOfRange
  | nilDereference
  | notASlice
  deriving Repr

/-! ## Decoder -/

theorem mapGet_sizeOf_lt {key : String} {entries : List (String × Value)} {v : Value}
    (h : mapGet key entries = some v) : sizeOf v < sizeOf (Value.map entries) := by
  induction entries with
  | nil => simp [mapGet] at h
  | cons e rest ih =>
    obtain ⟨k, w⟩ := e
    simp only [mapGet] at h
    split at h
    · cases h
      simp
      omega
    · have := ih h
      simp at this ⊢
      omega

mutual

/-- Source: `unwrapValueIfNeeded` (lines 36-69). -/
def unwrapValueIfNeeded (value : Value) (field : TableFieldSchema) : Except Panic Value :=
  match value with
  | .map fieldMap =>
    match hv : mapGet "v" fieldMap with
    | some wrappedValue =>
      if field.Fields.isSome then
        unwrapValueIfNeeded wrappedValue field
      else
        .ok wrappedValue
    | none =>
      match hf : mapGet "f" fieldMap with
      | some fieldValue =>
        match field.Fields with
        | some children =>
          match fieldValue with
          | .slice items => (processFields items children 0 []).map Value.map
          | _ => .error Panic.notASlice
        | none => .error (Panic.shouldNotBeHere value)
      | none => .error (Panic.shouldNotBeHere value)
  | .slice slice => (unwrapSlice slice field).map Value.slice
  | .lit a => .ok (.lit a)
termination_by (sizeOf value, 0)
decreasing_by
  all_goals simp_wf
  · have := mapGet_sizeOf_lt hv
    simp at this
    apply Prod.Lex.left
    omega
  · have := mapGet_sizeOf_lt hf
    simp at this
    apply Prod.Lex.left
    omega
  · apply Prod.Lex.left
    omega

/-- The callback loop of `toolbox.ProcessSliceWithIndex` in the record branch
(lines 48-53): item `index` is decoded against `field.Fields[index]` and stored
under that child name. -/
def processFields (items : List Value) (children : List TableFieldSchema) (index : Nat)
    (newMap : List (String × Value)) : Except Panic (List (String × Value)) :=
  match items with
  | [] => .ok newMap
  | item :: rest =>
    match children.get? index with
    | none => .error Panic.indexOutOfRange
    | some child =>
      match unwrapValueIfNeeded item child with
      | .error p => .error p
      | .ok newMapValue => processFields rest children (index + 1) (mapSet child.Name newMapValue newMap)
termination_by (sizeOf items, 1)
decreasing_by
  all_goals simp_wf
  · apply Prod.Lex.left
    omega
  · apply Prod.Lex.left
    omega

/-- The `for _, item := range slice` loop (lines 62-65). -/
def unwrapSlice (slice : List Value) (field : TableFieldSchema) : Except Panic (List Value) :=
  match slice with
  | [] => .ok []
  | item :: rest =>
    match unwrapValueIfNeeded item field with
    | .error p => .error p
    | .ok value =>
      match unwrapSlice rest field with
      | .error p => .error p
      | .ok newSlice => .ok (value :: newSlice)
termination_by (sizeOf slice, 1)
decreasing_by
  all_goals simp_wf
  · apply Prod.Lex.left
    omega
  · apply Prod.Lex.left
    omega

end


/-- Source: `toValue` (lines 71-88). -/
def toValue (source : Value) (field : TableFieldSchema) : Except Panic Value :=
  match source with
  | .slice sourceValue => (unwrapSlice sourceValue field).map Value.slice
  | .map sourceValue => unwrapValueIfNeeded (.map sourceValue) field
  | .lit a => .ok (.lit a)

/-! ## Iterator state -/

/-- The part of `bigquery.TableCell` the code reads. -/
structure TableCell where
  V : Value
  deriving Repr

/-- The part of `bigquery.TableRow` the code reads. -/
structure TableRow where
  F : List TableCell
  deriving Repr

/-- The part of `bigquery.TableSchema` the code reads. -/
structure TableSchema where
  Fields : List TableFieldSchema
  deriving Repr

/-- A Go `error` value. -/
structure GoError where
  msg : String
  deriving DecidableEq, Repr

/-- The fields of `bigquery.GetQueryResultsResponse` that `fetchPage` reads. -/
structure GetQueryResultsResponse where
  CacheHit : Bool
  JobComplete : Bool
  PageToken : String
  Rows : List TableRow
  Schema : Option TableSchema
  TotalBytesProcessed : Int
  TotalRows : Nat
  deriving Repr

/-- The fields of `QueryResultInfo` that `fetchPage` writes. -/
structure QueryResultInfo where
  CacheHit : Bool
  TotalRows : Int
  TotalBytesProcessed : Int
  deriving Repr

/-- One `Jobs.GetQueryResults(projectID, jobID).MaxResults(n).PageToken(t)` call. -/
structure Request where
  projectID : String
  jobID : String
  maxResults : Int
  pageToken : String
  deriving DecidableEq, Repr

/-- The remote service: given the requests answered before and the current
request, a response or an error. -/
abbrev Service := List Request → Request → Except GoError GetQueryResultsResponse

/-- Source: `var queryPageSize int64 = 500` (line 12). -/
def queryPageSize : Int := 500

/-- Number of values of a `uint64`. -/
def uint64Size : Nat := 18446744073709551616

/-- Conversion `int(x)` of a `uint64` to the 64-bit `int`. -/
def toInt (x : Nat) : Int :=
  if x < 9223372036854775808 then (x : Int) else (x : Int) - 18446744073709551616

/-- Source: `type QueryIterator struct` (lines 17-28) with the fields of the
embedded `queryTask` that the code reads, and the ghost log `calls` of the
page requests made so far. -/
structure QueryIterator where
  service : Service
  projectID : String
  datasetID : String
  schema : Option TableSchema
  jobCompleted : Bool
  jobReferenceID : String
  Rows : List TableRow
  rowsIndex : Nat
  resultInfo : QueryResultInfo
  pageToken : String
  totalRows : Nat
  processedRows : Nat
  calls : List Request

/-- What a call hands back: a value, a Go `error`, or a panic. -/
inductive Result (α : Type) where
  | ok (a : α)
  | error (e : GoError)
  | panic (p : Panic)
  deriving Repr

/-- Source: `HasNext` (lines 31-33). -/
def HasNext (qi : QueryIterator) : Bool :=
  decide (qi.processedRows < qi.totalRows)

/-- Source: `fetchPage` (lines 110-135); `none` is the nil error. -/
def fetchPage (qi : QueryIterator) : Option GoError × QueryIterator :=
  let request : Request :=
    { projectID := qi.projectID, jobID := qi.jobReferenceID,
      maxResults := queryPageSize, pageToken := qi.pageToken }
  let answer := qi.service qi.calls request
  let qi := { qi with calls := qi.calls ++ [request] }
  match answer with
  | .error err => (some err, qi)
  | .ok jobGetResult =>
    let qi := if qi.totalRows = 0 then { qi with totalRows := jobGetResult.TotalRows } else qi
    let qi :=
      if qi.resultInfo.TotalRows = 0 then
        { qi with resultInfo :=
            { TotalBytesProcessed := jobGetResult.TotalBytesProcessed,
              CacheHit := jobGetResult.CacheHit,
              TotalRows := toInt jobGetResult.TotalRows } }
      else qi
    let qi := { qi with rowsIndex := 0 }
    let qi := { qi with Rows := jobGetResult.Rows }
    let qi := { qi with pageToken := jobGetResult.PageToken }
    let qi := { qi with jobCompleted := jobGetResult.JobComplete }
    let qi := if qi.schema.isNone then { qi with schema := jobGetResult.Schema } else qi
    (none, qi)

/-- The `for i, cell := range row.F` loop of `Next` (lines 103-106). -/
def decodeCells (cells : List TableCell) (fields : List TableFieldSchema) (i : Nat)
    (values : List Value) : Except Panic (List Value) :=
  match cells with
  | [] => .ok values
  | cell :: rest =>
    match fields.get? i with
    | none => .error Panic.indexOutOfRange
    | some field =>
      match toValue cell.V field with
      | .error p => .error p
      | .ok value => decodeCells rest fields (i + 1) (values ++ [value])

/-- Lines 100-107 of `Next`: read the row under the cursor and decode it. -/
def readRow (qi : QueryIterator) : Result (List Value) :=
  match qi.Rows.get? qi.rowsIndex with
  | none => .panic Panic.indexOutOfRange
  | some row =>
    match qi.schema with
    | none => .panic Panic.nilDereference
    | some schema =>
      match decodeCells row.F schema.Fields 0 [] with
      | .error p => .panic p
      | .ok values => .ok values

/-- Source: `Next` (lines 91-108).  The state is returned in every case, with
the assignments made up to the point where the call ended. -/
def Next (qi : QueryIterator) : Result (List Value) × QueryIterator :=
  let qi := { qi with processedRows := (qi.processedRows + 1) % uint64Size }
  let qi := { qi with rowsIndex := (qi.rowsIndex + 1) % uint64Size }
  if toInt qi.rowsIndex ≥ (qi.Rows.length : Int) then
    match fetchPage qi with
    | (some err, qi) => (.error err, qi)
    | (none, qi) => (readRow qi, qi)
  else
    (readRow qi, qi)

/-- Source: `GetColumns` (lines 138-147). -/
def GetColumns (qi : QueryIterator) : Except GoError (List String) :=
  match qi.schema with
  | none => .error { msg := "Failed to get table schema" }
  | some schema => .ok (schema.Fields.map TableFieldSchema.Name)

/-- What `NewQueryIterator` obtains from its collaborators:
`GetServiceAndContextForManager(manager)`, the two configuration keys, and
`result.run(query)` reduced to the job reference id it yields. -/
structure Manager where
  connect : Except GoError Service
  projectID : String
  datasetID : String
  run : String → Except GoError String

/-- Source: `NewQueryIterator` (lines 150-183). -/
def NewQueryIterator (manager : Manager) (query : String) : Except GoError QueryIterator :=
  match manager.connect with
  | .error err => .error err
  | .ok service =>
    let result : QueryIterator :=
      { service := service, projectID := manager.projectID, datasetID := manager.datasetID,
        schema := none, jobCompleted := false, jobReferenceID := "", Rows := [],
        rowsIndex := 0, resultInfo := { CacheHit := false, TotalRows := 0, TotalBytesProcessed := 0 },
        pageToken := "", totalRows := 0, processedRows := 0, calls := [] }
    match manager.run query with
    | .error err => .error err
    | .ok jobId =>
      let result := { result with jobReferenceID := jobId }
      let result := { result with
        resultInfo := { CacheHit := false, TotalRows := 0, TotalBytesProcessed := 0 } }
      match fetchPage result with
      | (some err, _) => .error err
      | (none, result) => .ok result

/-- The caller loop `for it.HasNext() { it.Next() }`, stopping at the first
call that does not yield a row; `fuel` bounds the number of iterations. -/
def consume : Nat → QueryIterator → QueryIterator
  | 0, qi => qi
  | fuel + 1, qi =>
    if HasNext qi then
      match Next qi with
      | (.ok _, qi) => consume fuel qi
      | (_, qi) => qi
    else qi

/-! ## Worked example of the specification -/

/-- Child descriptor `city`, without children. -/
def cityField : TableFieldSchema := .mk "city" none

/-- Child descriptor `zips`, without children. -/
def zipsField : TableFieldSchema := .mk "zips" none

/-- Descriptor `addr` with the children `city` and `zips`. -/
def addrField : TableFieldSchema := .mk "addr" (some [cityField, zipsField])

/-- A container holding `x` under the key `v`. -/
def vBox (x : Value) : Value := .map [("v", x)]

/-- A string literal. -/
def strV (s : String) : Value := .lit (.str s)

/-- The wire value of the nested decode example. -/
def addrWire : Value :=
  .map [("f", .slice [vBox (vBox (strV "Springfield")),
                      vBox (.slice [vBox (vBox (strV "11111")), vBox (vBox (strV "22222"))])])]

/-- What the decoder returns on `addrWire` against `addrField`. -/
def addrDecoded : Value :=
  .map [("city", vBox (strV "Springfield")),
        ("zips", .slice [vBox (vBox (strV "11111")), vBox (vBox (strV "22222"))])]

/-- The mapping the nested decode example announces. -/
def addrExpected : Value :=
  .map [("city", strV "Springfield"), ("zips", .slice [strV "11111", strV "22222"])]

/-! ## Round trip: the documented wire shapes -/

mutual

/-- The documented wrapping of a plain value tree: a scalar is a container
holding the literal under `v`, a record is a container holding the wrapped
values of its entries, in order, under `f`, and a list is the sequence of its
wrapped elements. -/
def wrap : Value → Value
  | .lit a => .map [("v", .lit a)]
  | .slice items => .slice (wrapList items)
  | .map entries => .map [("f", .slice (wrapEntries entries))]

/-- Wrapping of every element of a list. -/
def wrapList : List Value → List Value
  | [] => []
  | x :: xs => wrap x :: wrapList xs

/-- Wrapping of the value of every entry of a mapping, in entry order. -/
def wrapEntries : List (String × Value) → List Value
  | [] => []
  | (_, v) :: rest => wrap v :: wrapEntries rest

end

/-- A plain value tree conforms to a field descriptor: an atomic scalar for a
descriptor without children, a mapping whose keys are the child names (pairwise
distinct, in child order) with conforming values for a descriptor with
children, or a list of conforming values. -/
inductive Conforms : TableFieldSchema → Value → Prop where
  | scalar (field : TableFieldSchema) (a : Atom) :
      field.Fields = none → Conforms field (.lit a)
  | record (field : TableFieldSchema) (children : List TableFieldSchema)
      (entries : List (String × Value)) :
      field.Fields = some children →
      (children.map TableFieldSchema.Name).Nodup →
      entries.map Prod.fst = children.map TableFieldSchema.Name →
      (∀ (i : Nat) (hc : i < children.length) (he : i < entries.length),
        Conforms (children.get ⟨i, hc⟩) (entries.get ⟨i, he⟩).2) →
      Conforms field (.map entries)
  | repeated (field : TableFieldSchema) (items : List Value) :
      (∀ x, x ∈ items → Conforms field x) → Conforms field (.slice items)

/-! ## Scenarios -/

/-- Scenario: a row with the single cell "a". -/
def rowA : TableRow := { F := [{ V := strV "a" }] }

/-- Scenario: a row with the single cell "b". -/
def rowB : TableRow := { F := [{ V := strV "b" }] }

/-- Scenario: a schema with the single childless column `c`. -/
def oneColumn : TableSchema := { Fields := [.mk "c" none] }

/-- Scenario: a completed result of two rows in one page, no further page. -/
def twoRowPage : GetQueryResultsResponse :=
  { CacheHit := false, JobComplete := true, PageToken := "", Rows := [rowA, rowB],
    Schema := some oneColumn, TotalBytesProcessed := 0, TotalRows := 2 }

/-- Scenario: the service that answers every request with `twoRowPage`. -/
def twoRowService : Service := fun _ _ => .ok twoRowPage

/-- Scenario: a manager connected to `twoRowService`. -/
def twoRowManager : Manager :=
  { connect := .ok twoRowService, projectID := "p", datasetID := "d", run := fun _ => .ok "job" }

/-- Scenario: the iterator `NewQueryIterator twoRowManager` returns. -/
def twoRowStart : QueryIterator :=
  { service := twoRowService, projectID := "p", datasetID := "d", schema := some oneColumn,
    jobCompleted := true, jobReferenceID := "job", Rows := [rowA, rowB], rowsIndex := 0,
    resultInfo := { CacheHit := false, TotalRows := 2, TotalBytesProcessed := 0 },
    pageToken := "", totalRows := 2, processedRows := 0,
    calls := [{ projectID := "p", jobID := "job", maxResults := 500, pageToken := "" }] }

/-- Scenario: the service that answers the first request with `twoRowPage`
and fails every later request. -/
def flakyService : Service := fun earlier _ =>
  match earlier with
  | [] => .ok twoRowPage
  | _ :: _ => .error { msg := "quota exceeded" }

/-- Scenario: a manager connected to `flakyService`. -/
def flakyManager : Manager :=
  { connect := .ok flakyService, projectID := "p", datasetID := "d", run := fun _ => .ok "job" }

/-- Scenario: the iterator `NewQueryIterator flakyManager` returns. -/
def flakyStart : QueryIterator := { twoRowStart with service := flakyService }

/-- Scenario: a record column `rec` with the single child `x`. -/
def recColumn : TableSchema := { Fields := [.mk "rec" (some [.mk "x" none])] }

/-- Scenario: a row whose cell is the record `{"f":[{"v":"1"}]}`. -/
def recRow : TableRow := { F := [{ V := .map [("f", .slice [vBox (strV "1")])] }] }

/-- Scenario: a row whose cell is the empty container `{}`. -/
def malformedRow : TableRow := { F := [{ V := .map [] }] }

/-- Scenario: a one-page result whose second row holds the malformed cell. -/
def malformedPage : GetQueryResultsResponse :=
  { CacheHit := false, JobComplete := true, PageToken := "", Rows := [recRow, malformedRow],
    Schema := some recColumn, TotalBytesProcessed := 0, TotalRows := 2 }

/-- Scenario: a manager connected to the service that answers `malformedPage`. -/
def malformedManager : Manager :=
  { connect := .ok (fun _ _ => .ok malformedPage), projectID := "p", datasetID := "d",
    run := fun _ => .ok "job" }

/-- Scenario: the iterator `NewQueryIterator malformedManager` returns. -/
def malformedStart : QueryIterator :=
  { service := fun _ _ => .ok malformedPage, projectID := "p", datasetID := "d",
    schema := some recColumn, jobCompleted := true, jobReferenceID := "job",
    Rows := [recRow, malformedRow], rowsIndex := 0,
    resultInfo := { CacheHit := false, TotalRows := 2, TotalBytesProcessed := 0 },
    pageToken := "", totalRows := 2, processedRows := 0,
    calls := [{ projectID := "p", jobID := "job", maxResults := 500, pageToken := "" }] }

/-- Scenario: a page of `n` rows with continuation token `token`, of a result
that reports 1200 rows in total. -/
def pageOf (n : Nat) (token : String) : GetQueryResultsResponse :=
  { CacheHit := false, JobComplete := true, PageToken := token, Rows := List.replicate n rowA,
    Schema := some oneColumn, TotalBytesProcessed := 0, TotalRows := 1200 }

/-- Scenario: 1200 rows served as pages of 500, 500 and 200 rows, selected by
the continuation token; the last page carries the empty token. -/
def service1200 : Service := fun _ request =>
  if request.pageToken = "" then .ok (pageOf 500 "t1")
  else if request.pageToken = "t1" then .ok (pageOf 500 "t2")
  else if request.pageToken = "t2" then .ok (pageOf 200 "")
  else .error { msg := "invalid page token" }

/-- Scenario: the same three pages served in sequence, the service refusing
any request after the third. -/
def service1200Seq : Service := fun earlier _ =>
  match earlier.length with
  | 0 => .ok (pageOf 500 "t1")
  | 1 => .ok (pageOf 500 "t2")
  | 2 => .ok (pageOf 200 "")
  | _ => .error { msg := "no more pages" }

/-- Scenario: construct the iterator against `service` and call `Next` while
`HasNext` is true. -/
def runToEnd (service : Service) : Option QueryIterator :=
  match NewQueryIterator
      { connect := .ok service, projectID := "p", datasetID := "d", run := fun _ => .ok "job" }
      "q" with
  | .ok qi => some (consume 2000 qi)
  | .error _ => none

/-- States reachable from a successful construction by calls that return
(`HasNext` leaves the state as it is). -/
inductive Reachable : QueryIterator → Prop where
  | construct (manager : Manager) (query : String) (qi : QueryIterator) :
      NewQueryIterator manager query = .ok qi → Reachable qi
  | next (qi : QueryIterator) :
      Reachable qi → (∀ p, (Next qi).1 ≠ .panic p) → Reachable (Next qi).2

/-! ## Recursion depth of the decoder -/

mutual

/-- Depth of the recursion below the call `unwrapValueIfNeeded value field`:
0 when the call makes no recursive call, and otherwise one more than the
largest depth below a call it makes.  The recursive calls are those of the
source, in the same branches (lines 40, 49 and 63). -/
def unwrapDepth (value : Value) (field : TableFieldSchema) : Nat :=
  match value with
  | .map fieldMap =>
    match hv : mapGet "v" fieldMap with
    | some wrappedValue =>
      if field.Fields.isSome then
        unwrapDepth wrappedValue field + 1
      else
        0
    | none =>
      match hf : mapGet "f" fieldMap with
      | some fieldValue =>
        match field.Fields with
        | some children =>
          match fieldValue with
          | .slice items => processFieldsDepth items children 0
          | _ => 0
        | none => 0
      | none => 0
  | .slice slice => unwrapSliceDepth slice field
  | .lit _ => 0
termination_by (sizeOf value, 0)
decreasing_by
  all_goals simp_wf
  · have := mapGet_sizeOf_lt hv
    simp at this
    apply Prod.Lex.left
    omega
  · have := mapGet_sizeOf_lt hf
    simp at this
    apply Prod.Lex.left
    omega
  · apply Prod.Lex.left
    omega

/-- Depth of the recursion made by the record loop from item `index` on; the
loop ends at the first item whose decoding aborts. -/
def processFieldsDepth (items : List Value) (children : List TableFieldSchema) (index : Nat) :
    Nat :=
  match items with
  | [] => 0
  | item :: rest =>
    match children.get? index with
    | none => 0
    | some child =>
      match unwrapValueIfNeeded item child with
      | .error _ => unwrapDepth item child + 1
      | .ok _ =>
        max (unwrapDepth item child + 1) (processFieldsDepth rest children (index + 1))
termination_by (sizeOf items, 1)
decreasing_by
  all_goals simp_wf
  all_goals apply Prod.Lex.left
  all_goals omega

/-- Depth of the recursion made by the sequence loop; the loop ends at the
first element whose decoding aborts. -/
def unwrapSliceDepth (slice : List Value) (field : TableFieldSchema) : Nat :=
  match slice with
  | [] => 0
  | item :: rest =>
    match unwrapValueIfNeeded item field with
    | .error _ => unwrapDepth item field + 1
    | .ok _ => max (unwrapDepth item field + 1) (unwrapSliceDepth rest field)
termination_by (sizeOf slice, 1)
decreasing_by
  all_goals simp_wf
  all_goals apply Prod.Lex.left
  all_goals omega

end

mutual

/-- Nesting depth of a wire value: 0 for a literal, one more than the deepest
element of a sequence or the deepest entry of a container. -/
def Value.nesting : Value → Nat
  | .lit _ => 0
  | .slice items => nestingList items + 1
  | .map entries => nestingEntries entries + 1

/-- Largest nesting depth among the elements of a sequence. -/
def nestingList : List Value → Nat
  | [] => 0
  | x :: xs => max x.nesting (nestingList xs)

/-- Largest nesting depth among the values of the entries of a container. -/
def nestingEntries : List (String × Value) → Nat
  | [] => 0
  | (_, v) :: rest => max v.nesting (nestingEntries rest)

end

/-- The literal `null` inside `n` nested one-element sequences. -/
def nestedSlices : Nat → Value
  | 0 => .lit .null
  | n + 1 => .slice [nestedSlices n]

/-- The request `fetchPage` sends in state `qi` (lines 111-112). -/
def pageRequest (qi : QueryIterator) : Request :=
  { projectID := qi.projectID, jobID := qi.jobReferenceID,
    maxResults := queryPageSize, pageToken := qi.pageToken }

/-- The state of `Next` after its two increments (lines 92-93). -/
def advance (qi : QueryIterator) : QueryIterator :=
  { qi with processedRows := (qi.processedRows + 1) % uint64Size,
            rowsIndex := (qi.rowsIndex + 1) % uint64Size }

/-- The iterator `NewQueryIterator` holds right before its first `fetchPage`
(lines 157-176). -/
def initialIterator (service : Service) (manager : Manager) (jobId : String) : QueryIterator :=
  { service := service, projectID := manager.projectID, datasetID := manager.datasetID,
    schema := none, jobCompleted := false, jobReferenceID := jobId, Rows := [],
    rowsIndex := 0, resultInfo := { CacheHit := false, TotalRows := 0, TotalBytesProcessed := 0 },
    pageToken := "", totalRows := 0, processedRows := 0, calls := [] }

/-- The request of the first `fetchPage`, made by `NewQueryIterator`: the
continuation token is still empty. -/
def firstRequest (manager : Manager) (jobId : String) : Request :=
  { projectID := manager.projectID, jobID := jobId, maxResults := queryPageSize, pageToken := "" }

/-- Scenario: the first page of an empty, completed result. -/
def emptyPage : GetQueryResultsResponse :=
  { CacheHit := false, JobComplete := true, PageToken := "", Rows := [],
    Schema := some oneColumn, TotalBytesProcessed := 0, TotalRows := 0 }

/-- Scenario: a manager connected to the service that answers `emptyPage`. -/
def emptyManager : Manager :=
  { connect := .ok (fun _ _ => .ok emptyPage), projectID := "p", datasetID := "d",
    run := fun _ => .ok "job" }

/-- Scenario: a schema with the two childless columns `c` and `d`. -/
def twoColumns : TableSchema := { Fields := [.mk "c" none, .mk "d" none] }

/-- Scenario: a manager connected to the service whose page holds two
one-cell rows under the two-column schema. -/
def shortRowManager : Manager :=
  { connect := .ok (fun _ _ => .ok { twoRowPage with Schema := some twoColumns }),
    projectID := "p", datasetID := "d", run := fun _ => .ok "job" }

/-- Scenario: the iterator `NewQueryIterator shortRowManager` returns. -/
def shortRowStart : QueryIterator :=
  { twoRowStart with
    service := fun _ _ => .ok { twoRowPage with Schema := some twoColumns },
    schema := some twoColumns }

/-- Scenario: a manager connected to the service whose page holds two rows
and carries no schema. -/
def noSchemaManager : Manager :=
  { connect := .ok (fun _ _ => .ok { twoRowPage with Schema := none }),
    projectID := "p", datasetID := "d", run := fun _ => .ok "job" }

/-- Scenario: the iterator `NewQueryIterator noSchemaManager` returns. -/
def noSchemaStart : QueryIterator :=
  { twoRowStart with
    service := fun _ _ => .ok { twoRowPage with Schema := none },
    schema := none }

/-- Scenario: the response of a job that has not completed: no rows, no
schema, a total-row count of zero. -/
def pendingPage : GetQueryResultsResponse :=
  { CacheHit := false, JobComplete := false, PageToken := "", Rows := [],
    Schema := none, TotalBytesProcessed := 0, TotalRows := 0 }

/-- Scenario: the service that answers the first request with `pendingPage`
and every later request with `twoRowPage`. -/
def lateCountService : Service := fun earlier _ =>
  match earlier with
  | [] => .ok pendingPage
  | _ :: _ => .ok twoRowPage

/-- Scenario: a manager connected to `lateCountService`. -/
def lateCountManager : Manager :=
  { connect := .ok lateCountService, projectID := "p", datasetID := "d",
    run := fun _ => .ok "job" }

/-- Scenario: the iterator `NewQueryIterator lateCountManager` returns. -/
def lateCountStart : QueryIterator :=
  { service := lateCountService, projectID := "p", datasetID := "d", schema := none,
    jobCompleted := false, jobReferenceID := "job", Rows := [], rowsIndex := 0,
    resultInfo := { CacheHit := false, TotalRows := 0, TotalBytesProcessed := 0 },
    pageToken := "", totalRows := 0, processedRows := 0,
    calls := [{ projectID := "p", jobID := "job", maxResults := 500, pageToken := "" }] }

/-- Scenario: a manager connected to the service that answers every request
with `pendingPage`. -/
def pendingManager : Manager :=
  { connect := .ok (fun _ _ => .ok pendingPage), projectID := "p", datasetID := "d",
    run := fun _ => .ok "job" }

/-- Scenario: the iterator `NewQueryIterator pendingManager` returns. -/
def pendingStart : QueryIterator :=
  { lateCountStart with service := fun _ _ => .ok pendingPage }

/-- Scenario: a first page of two rows of a result of three rows, with the
continuation token `t1`. -/
def firstOfThree : GetQueryResultsResponse :=
  { CacheHit := false, JobComplete := true, PageToken := "t1", Rows := [rowA, rowB],
    Schema := some oneColumn, TotalBytesProcessed := 0, TotalRows := 3 }

/-- Scenario: a page without rows that carries a continuation token. -/
def zeroRowPage : GetQueryResultsResponse :=
  { CacheHit := false, JobComplete := false, PageToken := "t2", Rows := [],
    Schema := some oneColumn, TotalBytesProcessed := 0, TotalRows := 3 }

/-- Scenario: the service that answers the request with the empty token with
`firstOfThree` and every other request with `zeroRowPage`. -/
def zeroRowService : Service := fun _ request =>
  if request.pageToken = "" then .ok firstOfThree else .ok zeroRowPage

/-- Scenario: a manager connected to `zeroRowService`. -/
def zeroRowManager : Manager :=
  { connect := .ok zeroRowService, projectID := "p", datasetID := "d",
    run := fun _ => .ok "job" }

/-- Scenario: the iterator `NewQueryIterator zeroRowManager` returns. -/
def zeroRowStart : QueryIterator :=
  { service := zeroRowService, projectID := "p", datasetID := "d", schema := some oneColumn,
    jobCompleted := true, jobReferenceID := "job", Rows := [rowA, rowB], rowsIndex := 0,
    resultInfo := { CacheHit := false, TotalRows := 3, TotalBytesProcessed := 0 },
    pageToken := "t1", totalRows := 3, processedRows := 0,
    calls := [{ projectID := "p", jobID := "job", maxResults := 500, pageToken := "" }] }

/-! ## Equations of the decoder -/

theorem unwrap_lit (a : Atom) (field : TableFieldSchema) :
    unwrapValueIfNeeded (.lit a) field = .ok (.lit a) := by
  rw [unwrapValueIfNeeded]

theorem unwrap_slice (xs : List Value) (field : TableFieldSchema) :
    unwrapValueIfNeeded (.slice xs) field = (unwrapSlice xs field).map Value.slice := by
  rw [unwrapValueIfNeeded]

theorem unwrap_map_v (m : List (String × Value)) (field : TableFieldSchema) (w : Value)
    (h : mapGet "v" m = some w) :
    unwrapValueIfNeeded (.map m) field =
      if field.Fields.isSome then unwrapValueIfNeeded w field else .ok w := by
  rw [unwrapValueIfNeeded]
  split
  · rename_i w2 h2
    rw [h] at h2
    cases h2
    rfl
  · rename_i h2
    rw [h] at h2
    cases h2


theorem unwrap_map_f (m : List (String × Value)) (field : TableFieldSchema)
    (items : List Value) (children : List TableFieldSchema)
    (hv : mapGet "v" m = none) (hf : mapGet "f" m = some (.slice items))
    (hc : field.Fields = some children) :
    unwrapValueIfNeeded (.map m) field = (processFields items children 0 []).map Value.map := by
  rw [unwrapValueIfNeeded]
  split
  · rename_i w2 h2
    rw [hv] at h2
    cases h2
  · split
    · rename_i fv2 h3
      rw [hf] at h3
      cases h3
      simp only [hc]
    · rename_i h3
      rw [hf] at h3
      cases h3

theorem unwrap_map_f_nil (m : List (String × Value)) (field : TableFieldSchema) (fv : Value)
    (hv : mapGet "v" m = none) (hf : mapGet "f" m = some fv) (hc : field.Fields = none) :
    unwrapValueIfNeeded (.map m) field = .error (Panic.shouldNotBeHere (.map m)) := by
  rw [unwrapValueIfNeeded]
  split
  · rename_i w2 h2
    rw [hv] at h2
    cases h2
  · split
    · simp only [hc]
    · rfl

theorem unwrap_map_none (m : List (String × Value)) (field : TableFieldSchema)
    (hv : mapGet "v" m = none) (hf : mapGet "f" m = none) :
    unwrapValueIfNeeded (.map m) field = .error (Panic.shouldNotBeHere (.map m)) := by
  rw [unwrapValueIfNeeded]
  split
  · rename_i w2 h2
    rw [hv] at h2
    cases h2
  · split
    · rename_i fv2 h3
      rw [hf] at h3
      cases h3
    · rfl

theorem unwrapSlice_nil (field : TableFieldSchema) : unwrapSlice [] field = .ok [] := by
  rw [unwrapSlice]

theorem unwrapSlice_cons (x : Value) (xs : List Value) (field : TableFieldSchema) :
    unwrapSlice (x :: xs) field =
      match unwrapValueIfNeeded x field with
      | .error p => .error p
      | .ok value =>
        match unwrapSlice xs field with
        | .error p => .error p
        | .ok newSlice => .ok (value :: newSlice) := by
  rw [unwrapSlice]

theorem processFields_nil (children : List TableFieldSchema) (index : Nat)
    (newMap : List (String × Value)) : processFields [] children index newMap = .ok newMap := by
  rw [processFields]

theorem processFields_cons (x : Value) (xs : List Value) (children : List TableFieldSchema)
    (index : Nat) (newMap : List (String × Value)) :
    processFields (x :: xs) children index newMap =
      match children.get? index with
      | none => .error Panic.indexOutOfRange
      | some child =>
        match unwrapValueIfNeeded x child with
        | .error p => .error p
        | .ok newMapValue =>
          processFields xs children (index + 1) (mapSet child.Name newMapValue newMap) := by
  rw [processFields]

theorem mapGet_cons_eq (key : String) (v : Value) (rest : List (String × Value)) :
    mapGet key ((key, v) :: rest) = some v := by
  simp [mapGet]

theorem unwrap_vBox (w : Value) (field : TableFieldSchema) :
    unwrapValueIfNeeded (vBox w) field =
      if field.Fields.isSome then unwrapValueIfNeeded w field else .ok w :=
  unwrap_map_v _ field w (mapGet_cons_eq "v" w [])

theorem unwrap_fBox (items : List Value) (field : TableFieldSchema)
    (children : List TableFieldSchema) (hc : field.Fields = some children) :
    unwrapValueIfNeeded (.map [("f", .slice items)]) field =
      (processFields items children 0 []).map Value.map :=
  unwrap_map_f _ field items children (by simp [mapGet]) (mapGet_cons_eq "f" _ []) hc

/-! ## Decoder properties -/

theorem addrWire_unwrap : unwrapValueIfNeeded addrWire addrField = .ok addrDecoded := by
  rw [addrWire, unwrap_fBox _ addrField [cityField, zipsField] rfl]
  simp only [processFields_cons, processFields_nil, unwrap_vBox, cityField, zipsField,
    TableFieldSchema.Fields, TableFieldSchema.Name, List.get?, Option.isSome, mapSet]
  simp [Except.map, addrDecoded]

theorem toValue_eq_unwrap (source : Value) (field : TableFieldSchema) :
    toValue source field = unwrapValueIfNeeded source field := by
  cases source with
  | lit a => rw [unwrap_lit]; rfl
  | slice xs => rw [unwrap_slice]; rfl
  | map m => rfl

theorem mapSet_of_not_mem (key : String) (v : Value) (acc : List (String × Value))
    (h : key ∉ acc.map Prod.fst) : mapSet key v acc = acc ++ [(key, v)] := by
  induction acc with
  | nil => rfl
  | cons e rest ih =>
    obtain ⟨k, w⟩ := e
    simp only [List.map_cons, List.mem_cons, not_or] at h
    have hk : ¬ k = key := fun hk => h.1 hk.symm
    simp only [mapSet, hk, if_false, List.cons_append, ih h.2]

theorem get?_append_length (pre rest : List TableFieldSchema) (c : TableFieldSchema) :
    (pre ++ c :: rest).get? pre.length = some c := by
  induction pre with
  | nil => rfl
  | cons p pre ih => simpa using ih

theorem processFields_ok (xs : List Value) :
    ∀ (pre rest : List TableFieldSchema) (ys : List Value) (acc : List (String × Value)),
      xs.length = rest.length → ys.length = rest.length →
      (∀ (i : Nat) (hx : i < xs.length) (hc : i < rest.length) (hy : i < ys.length),
        unwrapValueIfNeeded (xs.get ⟨i, hx⟩) (rest.get ⟨i, hc⟩) = .ok (ys.get ⟨i, hy⟩)) →
      ((pre ++ rest).map TableFieldSchema.Name).Nodup →
      acc.map Prod.fst = pre.map TableFieldSchema.Name →
      processFields xs (pre ++ rest) pre.length acc
        = .ok (acc ++ List.zip (rest.map TableFieldSchema.Name) ys) := by
  induction xs with
  | nil =>
    intro pre rest ys acc hx hy _ _ _
    have hr : rest = [] := List.length_eq_zero.mp hx.symm
    subst hr
    have hy0 : ys = [] := List.length_eq_zero.mp hy
    subst hy0
    simp [processFields_nil]
  | cons x xs ih =>
    intro pre rest ys acc hx hy hdec hnd hacc
    cases rest with
    | nil => simp at hx
    | cons c rest =>
      cases ys with
      | nil => simp at hy
      | cons y ys =>
        have h0 := hdec 0 (by simp) (by simp) (by simp)
        simp only [List.get_eq_getElem, List.getElem_cons_zero] at h0
        rw [processFields_cons, get?_append_length]
        simp only [h0]
        have hnotin : c.Name ∉ acc.map Prod.fst := by
          rw [hacc]
          intro hmem
          simp only [List.map_append, List.map_cons] at hnd
          have := (List.nodup_append.mp hnd).2.2
          exact this hmem (List.mem_cons_self _ _)
        rw [mapSet_of_not_mem _ _ _ hnotin]
        have hlist : pre ++ c :: rest = (pre ++ [c]) ++ rest := by simp
        have hlen : pre.length + 1 = (pre ++ [c]).length := by simp
        rw [hlist, hlen]
        rw [ih (pre ++ [c]) rest ys (acc ++ [(c.Name, y)])]
        · simp
        · simpa using hx
        · simpa using hy
        · intro i h1 h2 h3
          have := hdec (i + 1) (by simpa using h1) (by simpa using h2) (by simpa using h3)
          simpa using this
        · rw [← hlist]; exact hnd
        · simp [hacc]

theorem unwrapSlice_ok (field : TableFieldSchema) (xs : List Value) :
    ∀ (ys : List Value), ys.length = xs.length →
      (∀ (i : Nat) (hx : i < xs.length) (hy : i < ys.length),
        unwrapValueIfNeeded (xs.get ⟨i, hx⟩) field = .ok (ys.get ⟨i, hy⟩)) →
      unwrapSlice xs field = .ok ys := by
  induction xs with
  | nil =>
    intro ys hy _
    have hy0 : ys = [] := List.length_eq_zero.mp hy
    subst hy0
    exact unwrapSlice_nil field
  | cons x xs ih =>
    intro ys hy hdec
    cases ys with
    | nil => simp at hy
    | cons y ys =>
      have h0 := hdec 0 (by simp) (by simp)
      simp only [List.get_eq_getElem, List.getElem_cons_zero] at h0
      have hrest := ih ys (by simpa using hy) (by
        intro i h1 h2
        have := hdec (i + 1) (by simpa using h1) (by simpa using h2)
        simpa using this)
      rw [unwrapSlice_cons]
      simp only [h0, hrest]

theorem wrapList_length (xs : List Value) : (wrapList xs).length = xs.length := by
  induction xs with
  | nil => rfl
  | cons x xs ih => simp [wrapList, ih]

theorem wrapList_get (xs : List Value) (i : Nat) (h1 : i < (wrapList xs).length)
    (h2 : i < xs.length) : (wrapList xs).get ⟨i, h1⟩ = wrap (xs.get ⟨i, h2⟩) := by
  induction xs generalizing i with
  | nil => simp at h2
  | cons x xs ih =>
    cases i with
    | zero => simp [wrapList]
    | succ i =>
      simp only [wrapList, List.get_eq_getElem, List.getElem_cons_succ]
      have := ih i (by simpa [wrapList] using h1) (by simpa using h2)
      simpa using this

theorem wrapEntries_length (m : List (String × Value)) : (wrapEntries m).length = m.length := by
  induction m with
  | nil => rfl
  | cons e m ih =>
    obtain ⟨k, v⟩ := e
    simp [wrapEntries, ih]

theorem wrapEntries_get (m : List (String × Value)) (i : Nat) (h1 : i < (wrapEntries m).length)
    (h2 : i < m.length) : (wrapEntries m).get ⟨i, h1⟩ = wrap (m.get ⟨i, h2⟩).2 := by
  induction m generalizing i with
  | nil => simp at h2
  | cons e m ih =>
    obtain ⟨k, v⟩ := e
    cases i with
    | zero => simp [wrapEntries]
    | succ i =>
      simp only [wrapEntries, List.get_eq_getElem, List.getElem_cons_succ]
      have := ih i (by simpa [wrapEntries] using h1) (by simpa using h2)
      simpa using this

theorem zip_fst_snd (m : List (String × Value)) :
    List.zip (m.map Prod.fst) (m.map Prod.snd) = m := by
  induction m with
  | nil => rfl
  | cons e m ih => simp [ih]

theorem unwrap_wrap (field : TableFieldSchema) (tree : Value) (h : Conforms field tree) :
    unwrapValueIfNeeded (wrap tree) field = .ok tree := by
  induction h with
  | scalar field a hnil =>
    rw [wrap, unwrap_map_v _ field (.lit a) (mapGet_cons_eq "v" _ []), hnil]
    rfl
  | record field children entries hf hnd hkeys _ ih =>
    rw [wrap, unwrap_fBox _ field children hf]
    have hlen : entries.length = children.length := by
      have := congrArg List.length hkeys
      simpa using this
    have hp := processFields_ok (wrapEntries entries) [] children (entries.map Prod.snd) []
      (by rw [wrapEntries_length, hlen]) (by simp [hlen])
      (by
        intro i hx hc hy
        have he : i < entries.length := by simpa using hy
        rw [wrapEntries_get entries i hx he]
        have := ih i hc he
        simpa using this)
      (by simpa using hnd) rfl
    simp only [List.nil_append, List.length_nil] at hp
    rw [hp, ← hkeys, zip_fst_snd]
    rfl
  | repeated field items _ ih =>
    rw [wrap, unwrap_slice]
    have hs := unwrapSlice_ok field (wrapList items) items (wrapList_length items).symm
      (by
        intro i hx hy
        rw [wrapList_get items i hx hy]
        exact ih _ (List.get_mem _ _ _))
    rw [hs]
    rfl

/-- C1 (as amended): decoding the example wire value against `addr` yields the
mapping whose `city` entry is still the container holding "Springfield" under
`v` and whose `zips` entry is the undecoded sequence of doubly wrapped
strings: a childless descriptor removes only the outermost `v` container. -/
theorem C1_nested_example_decodes_one_layer :
    toValue addrWire addrField = .ok addrDecoded ∧
      unwrapValueIfNeeded addrWire addrField = .ok addrDecoded :=
  ⟨(toValue_eq_unwrap addrWire addrField).trans addrWire_unwrap, addrWire_unwrap⟩

/-- C1 (counterexample): on the example wire value the decoder does not return
the announced mapping with `city` = "Springfield" and `zips` = ["11111","22222"]. -/
theorem C1_nested_example_not_expected :
    toValue addrWire addrField ≠ .ok addrExpected ∧
      unwrapValueIfNeeded addrWire addrField ≠ .ok addrExpected := by
  have hne : (Except.ok addrDecoded : Except Panic Value) ≠ .ok addrExpected := by
    simp [addrDecoded, addrExpected, vBox, strV]
  refine ⟨?_, ?_⟩
  · rw [toValue_eq_unwrap, addrWire_unwrap]; exact hne
  · rw [addrWire_unwrap]; exact hne

theorem addrExpected_conforms : Conforms addrField addrExpected := by
  unfold addrExpected
  refine Conforms.record addrField [cityField, zipsField] _ rfl ?_ rfl ?_
  · simp [cityField, zipsField, TableFieldSchema.Name]
  · intro i hc he
    match i, hc, he with
    | 0, _, _ => exact Conforms.scalar _ _ rfl
    | 1, _, _ =>
      refine Conforms.repeated _ _ ?_
      intro x hx
      simp only [List.mem_cons, List.mem_singleton, List.not_mem_nil, or_false] at hx
      rcases hx with rfl | rfl <;> exact Conforms.scalar _ _ rfl
    | n + 2, hc, _ => simp at hc

theorem mapGet_zip (names : List String) :
    ∀ (ys : List Value) (i : Nat) (hn : i < names.length) (hy : i < ys.length),
      names.Nodup → mapGet (names.get ⟨i, hn⟩) (List.zip names ys) = some (ys.get ⟨i, hy⟩) := by
  induction names with
  | nil => intro ys i hn; simp at hn
  | cons n names ih =>
    intro ys i hn hy hnd
    cases ys with
    | nil => simp at hy
    | cons y ys =>
      cases i with
      | zero => simp [mapGet]
      | succ i =>
        have hnd2 := List.nodup_cons.mp hnd
        have hi : i < names.length := by simpa using hn
        have hne : ¬ n = names.get ⟨i, hi⟩ := by
          intro h
          exact hnd2.1 (h ▸ List.get_mem _ _ _)
        have hrec := ih ys i hi (by simpa using hy) hnd2.2
        simp only [List.get_eq_getElem] at hne hrec
        simp only [List.zip_cons_cons, mapGet, List.get_eq_getElem, List.getElem_cons_succ, hne,
          if_false]
        exact hrec

/-- C2: round trip.  For every field descriptor and every plain value tree
conforming to it, wrapping the tree in the documented shapes and decoding the
result with `toValue` against the descriptor returns exactly the tree. -/
theorem C2_round_trip (field : TableFieldSchema) (tree : Value) (h : Conforms field tree) :
    toValue (wrap tree) field = .ok tree :=
  (toValue_eq_unwrap (wrap tree) field).trans (unwrap_wrap field tree h)

/-- C2 (witness): the round trip at the `addr` descriptor and the mapping
with `city` = "Springfield" and `zips` = ["11111","22222"]. -/
theorem C2_round_trip_witness :
    Conforms addrField addrExpected ∧ toValue (wrap addrExpected) addrField = .ok addrExpected :=
  ⟨addrExpected_conforms, C2_round_trip addrField addrExpected addrExpected_conforms⟩

/-- C3: record decode.  For a descriptor with children of pairwise distinct
names and a container without `v` key holding under `f` exactly one cell per
child, each cell decoding without failure against the child at the same
position, `unwrapValueIfNeeded` returns a mapping whose keys are the child
names and whose value under the i-th child name is the decoding of the i-th
cell against the i-th child. -/
theorem C3_record_decode (field : TableFieldSchema) (children : List TableFieldSchema)
    (m : List (String × Value)) (cells ys : List Value)
    (hf : field.Fields = some children)
    (hnd : (children.map TableFieldSchema.Name).Nodup)
    (hv : mapGet "v" m = none) (hcells : mapGet "f" m = some (.slice cells))
    (hlen : cells.length = children.length) (hys : ys.length = children.length)
    (hdec : ∀ (i : Nat) (hx : i < cells.length) (hc : i < children.length) (hy : i < ys.length),
      unwrapValueIfNeeded (cells.get ⟨i, hx⟩) (children.get ⟨i, hc⟩) = .ok (ys.get ⟨i, hy⟩)) :
    ∃ entries : List (String × Value),
      unwrapValueIfNeeded (.map m) field = .ok (.map entries) ∧
      entries.map Prod.fst = children.map TableFieldSchema.Name ∧
      ∀ (i : Nat) (hc : i < children.length) (hy : i < ys.length),
        mapGet (children.get ⟨i, hc⟩).Name entries = some (ys.get ⟨i, hy⟩) := by
  refine ⟨List.zip (children.map TableFieldSchema.Name) ys, ?_, ?_, ?_⟩
  · rw [unwrap_map_f m field cells children hv hcells hf]
    have hp := processFields_ok cells [] children ys [] hlen hys hdec (by simpa using hnd) rfl
    simp only [List.nil_append, List.length_nil] at hp
    rw [hp]
    rfl
  · rw [List.map_fst_zip]
    simp [hys]
  · intro i hc hy
    have := mapGet_zip (children.map TableFieldSchema.Name) ys i (by simpa using hc) hy hnd
    simpa using this

/-- C3 (witness): the `addr` descriptor and the container holding the cells
`{"v":"Springfield"}` and `{"v":"11111"}` under `f`. -/
theorem C3_record_decode_witness :
    ∃ entries : List (String × Value),
      unwrapValueIfNeeded (.map [("f", .slice [vBox (strV "Springfield"), vBox (strV "11111")])])
        addrField = .ok (.map entries) ∧
      entries.map Prod.fst = [cityField, zipsField].map TableFieldSchema.Name ∧
      ∀ (i : Nat) (hc : i < [cityField, zipsField].length)
        (hy : i < [strV "Springfield", strV "11111"].length),
        mapGet ([cityField, zipsField].get ⟨i, hc⟩).Name entries
          = some ([strV "Springfield", strV "11111"].get ⟨i, hy⟩) :=
  C3_record_decode addrField [cityField, zipsField]
    [("f", .slice [vBox (strV "Springfield"), vBox (strV "11111")])]
    [vBox (strV "Springfield"), vBox (strV "11111")] [strV "Springfield", strV "11111"]
    rfl (by simp [cityField, zipsField, TableFieldSchema.Name]) (by simp [mapGet])
    (mapGet_cons_eq "f" _ []) rfl rfl
    (by
      intro i hx hc hy
      match i, hx, hc, hy with
      | 0, _, _, _ => simp [unwrap_vBox, cityField, TableFieldSchema.Fields]
      | 1, _, _, _ => simp [unwrap_vBox, zipsField, TableFieldSchema.Fields]
      | n + 2, hx, _, _ => simp at hx)

/-- C4 (as amended): repeated decode.  For every wire sequence whose elements
each decode without failure against the field descriptor, `unwrapValueIfNeeded`
and `toValue` return the list of the same length whose i-th element is the
decoding of the i-th source element against the same descriptor. -/
theorem C4_repeated_decode (field : TableFieldSchema) (xs ys : List Value)
    (hlen : ys.length = xs.length)
    (hdec : ∀ (i : Nat) (hx : i < xs.length) (hy : i < ys.length),
      unwrapValueIfNeeded (xs.get ⟨i, hx⟩) field = .ok (ys.get ⟨i, hy⟩)) :
    unwrapValueIfNeeded (.slice xs) field = .ok (.slice ys) ∧
      toValue (.slice xs) field = .ok (.slice ys) := by
  have hs := unwrapSlice_ok field xs ys hlen hdec
  refine ⟨?_, ?_⟩
  · rw [unwrap_slice, hs]; rfl
  · rw [toValue_eq_unwrap, unwrap_slice, hs]; rfl

/-- C4 (witness): the sequence `[{"v":"11111"},{"v":"22222"}]` against `zips`. -/
theorem C4_repeated_decode_witness :
    unwrapValueIfNeeded (.slice [vBox (strV "11111"), vBox (strV "22222")]) zipsField
        = .ok (.slice [strV "11111", strV "22222"]) ∧
      toValue (.slice [vBox (strV "11111"), vBox (strV "22222")]) zipsField
        = .ok (.slice [strV "11111", strV "22222"]) :=
  C4_repeated_decode zipsField [vBox (strV "11111"), vBox (strV "22222")]
    [strV "11111", strV "22222"] rfl
    (by
      intro i hx hy
      match i, hx, hy with
      | 0, _, _ => simp [unwrap_vBox, zipsField, TableFieldSchema.Fields]
      | 1, _, _ => simp [unwrap_vBox, zipsField, TableFieldSchema.Fields]
      | n + 2, hx, _ => simp at hx)

/-- C4 (counterexample): on the one-element sequence holding an empty
container, neither `unwrapValueIfNeeded` nor `toValue` returns a list: both
abort with "Should not be here". -/
theorem C4_repeated_decode_counterexample :
    unwrapValueIfNeeded (.slice [.map []]) zipsField
        = .error (Panic.shouldNotBeHere (.map [])) ∧
      toValue (.slice [.map []]) zipsField = .error (Panic.shouldNotBeHere (.map [])) := by
  have h : unwrapValueIfNeeded (.slice [.map []]) zipsField
      = .error (Panic.shouldNotBeHere (.map [])) := by
    rw [unwrap_slice, unwrapSlice_cons, unwrap_map_none [] zipsField rfl rfl]
    rfl
  exact ⟨h, (toValue_eq_unwrap _ _).trans h⟩

/-- C5: scalar unwrap.  For every container holding `x` under `v`,
`unwrapValueIfNeeded` returns `x` itself when the descriptor has no child
fields, and the decoding of `x` against the same descriptor when it has. -/
theorem C5_scalar_unwrap (m : List (String × Value)) (x : Value) (field : TableFieldSchema)
    (h : mapGet "v" m = some x) :
    (field.Fields = none → unwrapValueIfNeeded (.map m) field = .ok x) ∧
      (field.Fields ≠ none →
        unwrapValueIfNeeded (.map m) field = unwrapValueIfNeeded x field) := by
  rw [unwrap_map_v m field x h]
  refine ⟨?_, ?_⟩
  · intro hnil
    rw [hnil]
    rfl
  · intro hsome
    cases hf : field.Fields with
    | none => exact absurd hf hsome
    | some cs => rfl

/-- C5 (witness): the container `{"v":"Springfield"}`, against the childless
`city` and against `addr`, which has children. -/
theorem C5_scalar_unwrap_witness :
    mapGet "v" [("v", strV "Springfield")] = some (strV "Springfield") ∧
      unwrapValueIfNeeded (.map [("v", strV "Springfield")]) cityField
        = .ok (strV "Springfield") ∧
      unwrapValueIfNeeded (.map [("v", strV "Springfield")]) addrField
        = unwrapValueIfNeeded (strV "Springfield") addrField :=
  ⟨mapGet_cons_eq "v" _ [],
    (C5_scalar_unwrap [("v", strV "Springfield")] (strV "Springfield") cityField
      (mapGet_cons_eq "v" _ [])).1 rfl,
    (C5_scalar_unwrap [("v", strV "Springfield")] (strV "Springfield") addrField
      (mapGet_cons_eq "v" _ [])).2 (by simp [addrField, TableFieldSchema.Fields])⟩

/-! ## Iterator lemmas -/

theorem fetchPage_processedRows (qi : QueryIterator) :
    (fetchPage qi).2.processedRows = qi.processedRows := by
  unfold fetchPage
  dsimp only
  split
  · rfl
  · split <;> split <;> split <;> rfl

theorem Next_processedRows (qi : QueryIterator) :
    (Next qi).2.processedRows = (qi.processedRows + 1) % uint64Size := by
  unfold Next
  dsimp only
  split
  · split
    · rename_i err q h
      have := fetchPage_processedRows
        { qi with processedRows := (qi.processedRows + 1) % uint64Size,
                  rowsIndex := (qi.rowsIndex + 1) % uint64Size }
      rw [h] at this
      exact this
    · rename_i q h
      have := fetchPage_processedRows
        { qi with processedRows := (qi.processedRows + 1) % uint64Size,
                  rowsIndex := (qi.rowsIndex + 1) % uint64Size }
      rw [h] at this
      exact this
  · rfl

theorem Next_cases (qi : QueryIterator) :
    (∃ e, (Next qi).1 = .error e) ∨ (Next qi).1 = readRow (Next qi).2 := by
  unfold Next
  dsimp only
  split
  · split
    · rename_i err q h
      exact Or.inl ⟨err, rfl⟩
    · exact Or.inr rfl
  · exact Or.inr rfl

theorem decodeCells_malformed (cells : List TableCell) :
    ∀ (fields : List TableFieldSchema) (i j : Nat) (values : List Value) (cell : TableCell)
      (field : TableFieldSchema) (m : List (String × Value)),
      cells.get? j = some cell → fields.get? (i + j) = some field → cell.V = .map m →
      mapGet "v" m = none → mapGet "f" m = none →
      ∃ p, decodeCells cells fields i values = .error p := by
  induction cells with
  | nil => intro fields i j values cell field m hc; simp at hc
  | cons c cs ih =>
    intro fields i j values cell field m hc hfield hV hv hf
    cases j with
    | zero =>
      simp only [List.get?_cons_zero, Option.some.injEq] at hc
      subst hc
      simp only [Nat.add_zero] at hfield
      refine ⟨Panic.shouldNotBeHere (.map m), ?_⟩
      rw [decodeCells, hfield]
      simp only [hV, toValue, unwrap_map_none m field hv hf]
    | succ j =>
      simp only [List.get?_cons_succ] at hc
      rw [decodeCells]
      cases hfi : fields.get? i with
      | none => exact ⟨Panic.indexOutOfRange, rfl⟩
      | some f0 =>
        dsimp only
        cases hdec : toValue c.V f0 with
        | error p => exact ⟨p, rfl⟩
        | ok v =>
          have hfield2 : fields.get? (i + 1 + j) = some field := by
            rw [← hfield]
            congr 1
            omega
          exact ih fields (i + 1) j (values ++ [v]) cell field m hc hfield2 hV hv hf

theorem readRow_malformed (qi : QueryIterator) (row : TableRow) (schema : TableSchema)
    (j : Nat) (cell : TableCell) (field : TableFieldSchema) (m : List (String × Value))
    (hrow : qi.Rows.get? qi.rowsIndex = some row) (hschema : qi.schema = some schema)
    (hcell : row.F.get? j = some cell) (hfield : schema.Fields.get? j = some field)
    (hV : cell.V = .map m) (hv : mapGet "v" m = none) (hf : mapGet "f" m = none) :
    ∃ p, readRow qi = .panic p := by
  obtain ⟨p, hp⟩ := decodeCells_malformed row.F schema.Fields 0 j [] cell field m hcell
    (by simpa using hfield) hV hv hf
  refine ⟨p, ?_⟩
  unfold readRow
  simp only [hrow, hschema, hp]

theorem readRow_ne_error (qi : QueryIterator) (e : GoError) : readRow qi ≠ .error e := by
  unfold readRow
  split
  · intro h; cases h
  · split
    · intro h; cases h
    · split <;> intro h <;> cases h

theorem Next_malformed (qi : QueryIterator) (row : TableRow) (schema : TableSchema)
    (j : Nat) (cell : TableCell) (field : TableFieldSchema) (m : List (String × Value))
    (hfetch : ∀ e, (Next qi).1 ≠ .error e)
    (hrow : (Next qi).2.Rows.get? (Next qi).2.rowsIndex = some row)
    (hschema : (Next qi).2.schema = some schema)
    (hcell : row.F.get? j = some cell) (hfield : schema.Fields.get? j = some field)
    (hV : cell.V = .map m) (hv : mapGet "v" m = none) (hf : mapGet "f" m = none) :
    ∃ p, (Next qi).1 = .panic p := by
  rcases Next_cases qi with ⟨e, he⟩ | h
  · exact absurd he (hfetch e)
  · rw [h]
    exact readRow_malformed _ row schema j cell field m hrow hschema hcell hfield hV hv hf

theorem malformedStart_no_fetch_error (e : GoError) : (Next malformedStart).1 ≠ .error e := by
  have h : (Next malformedStart).1 = readRow (Next malformedStart).2 := rfl
  rw [h]
  exact readRow_ne_error _ e

/-- C6 (as amended): malformed cell.  Whenever the row that `Next` is about to
yield (no fetch error occurred) contains a cell that is a container with
neither a `v` key nor an `f` key under a field descriptor that has child
fields, `Next` returns neither a row nor an error: it aborts with a panic, so
no partially built row is returned. -/
theorem C6_malformed_cell_panics (qi : QueryIterator) (row : TableRow) (schema : TableSchema)
    (j : Nat) (cell : TableCell) (field : TableFieldSchema) (m : List (String × Value))
    (children : List TableFieldSchema)
    (hfetch : ∀ e, (Next qi).1 ≠ .error e)
    (hrow : (Next qi).2.Rows.get? (Next qi).2.rowsIndex = some row)
    (hschema : (Next qi).2.schema = some schema)
    (hcell : row.F.get? j = some cell) (hfield : schema.Fields.get? j = some field)
    (_hchildren : field.Fields = some children)
    (hV : cell.V = .map m) (hv : mapGet "v" m = none) (hf : mapGet "f" m = none) :
    (∃ p, (Next qi).1 = .panic p) ∧ (∀ values, (Next qi).1 ≠ .ok values) ∧
      (∀ e, (Next qi).1 ≠ .error e) := by
  obtain ⟨p, hp⟩ := Next_malformed qi row schema j cell field m hfetch hrow hschema hcell hfield
    hV hv hf
  refine ⟨⟨p, hp⟩, ?_, hfetch⟩
  intro values h
  rw [hp] at h
  cases h

/-- C6 (witness): the iterator constructed over `malformedPage`, whose next
row holds the empty container under the record column `rec`. -/
theorem C6_malformed_cell_panics_witness :
    (∃ p, (Next malformedStart).1 = .panic p) ∧
      (∀ values, (Next malformedStart).1 ≠ .ok values) ∧
      (∀ e, (Next malformedStart).1 ≠ .error e) :=
  C6_malformed_cell_panics malformedStart malformedRow recColumn 0 { V := .map [] }
    (.mk "rec" (some [.mk "x" none])) [] [.mk "x" none]
    malformedStart_no_fetch_error rfl rfl rfl rfl rfl rfl rfl rfl

/-- C6 (counterexample): constructed over `malformedPage`, the iterator holds
as next row a cell that is the empty container under the record column `rec`;
`Next` then returns no decode error but aborts with a panic. -/
theorem C6_malformed_cell_counterexample :
    NewQueryIterator malformedManager "q" = .ok malformedStart ∧
      (∃ p, (Next malformedStart).1 = .panic p) ∧
      ∀ e, (Next malformedStart).1 ≠ .error e :=
  ⟨rfl,
    Next_malformed malformedStart malformedRow recColumn 0 { V := .map [] }
      (.mk "rec" (some [.mk "x" none])) [] malformedStart_no_fetch_error rfl rfl rfl rfl rfl
      rfl rfl,
    malformedStart_no_fetch_error⟩

theorem fetchPage_totalRows (qi : QueryIterator) (h : qi.totalRows ≠ 0) :
    (fetchPage qi).2.totalRows = qi.totalRows := by
  unfold fetchPage
  dsimp only
  split
  · rfl
  · rw [if_neg h]
    split <;> split <;> rfl

theorem Next_totalRows (qi : QueryIterator) (h : qi.totalRows ≠ 0) :
    (Next qi).2.totalRows = qi.totalRows := by
  unfold Next
  dsimp only
  split
  · split
    · rename_i err q hq
      have := fetchPage_totalRows
        { qi with processedRows := (qi.processedRows + 1) % uint64Size,
                  rowsIndex := (qi.rowsIndex + 1) % uint64Size } h
      rw [hq] at this
      exact this
    · rename_i q hq
      have := fetchPage_totalRows
        { qi with processedRows := (qi.processedRows + 1) % uint64Size,
                  rowsIndex := (qi.rowsIndex + 1) % uint64Size } h
      rw [hq] at this
      exact this
  · rfl

theorem twoRow_first_next : (Next twoRowStart).1 = .ok [strV "b"] := rfl

theorem twoRow_second_next : (Next (Next twoRowStart).2).1 = .ok [strV "a"] := rfl

theorem twoRow_third_next : (Next (Next (Next twoRowStart).2).2).1 = .ok [strV "b"] := rfl

theorem twoRow_reachable_two : Reachable (Next (Next twoRowStart).2).2 :=
  Reachable.next _
    (Reachable.next _ (Reachable.construct twoRowManager "q" twoRowStart rfl)
      (fun p h => by rw [twoRow_first_next] at h; cases h))
    (fun p h => by rw [twoRow_second_next] at h; cases h)

/-- C7 (evaluation at the failing input): constructed over a first page
holding the two rows `["a"]` and `["b"]`, the first call to `Next` returns the
decoding of the row at index 1, not of the row at index 0, and the second call
already fetches a page. -/
theorem C7_first_row_skipped :
    NewQueryIterator twoRowManager "q" = .ok twoRowStart ∧
      twoRowStart.Rows = [rowA, rowB] ∧ twoRowStart.rowsIndex = 0 ∧
      (Next twoRowStart).1 = .ok [strV "b"] ∧
      (Next twoRowStart).2.calls.length = 1 ∧
      (Next (Next twoRowStart).2).2.calls.length = 2 :=
  ⟨rfl, rfl, rfl, rfl, rfl, rfl⟩

/-- C8 (evaluation at the failing input): against the service that serves 1200
rows as pages of 500, 500 and 200 rows, construction followed by `Next` while
`HasNext` is true makes four page requests, the fourth with the empty token of
the last page, and ends with `processedRows = 1200`; the same holds when the
service refuses every request after the third. -/
theorem C8_four_fetches :
    (runToEnd service1200).map
        (fun q => (q.calls.length, q.calls.map (fun r => r.pageToken), q.processedRows, HasNext q))
        = some (4, ["", "t1", "t2", ""], 1200, false) ∧
      (runToEnd service1200Seq).map
        (fun q => (q.calls.length, q.calls.map (fun r => r.pageToken), q.processedRows, HasNext q))
        = some (4, ["", "t1", "t2", ""], 1200, false) := by
  decide!

/-- C9 (as amended): in every state reachable from a successful construction,
`HasNext` is false exactly when `processedRows >= totalRows` and true exactly
while `processedRows < totalRows`; `Next` has no exhaustion guard: called when
`HasNext` is false, with `totalRows` nonzero and the counter below its maximum,
it leaves `processedRows` strictly above `totalRows`. -/
theorem C9_hasNext_iff (qi : QueryIterator) (_h : Reachable qi) :
    (HasNext qi = false ↔ qi.totalRows ≤ qi.processedRows) ∧
      (HasNext qi = true ↔ qi.processedRows < qi.totalRows) ∧
      (HasNext qi = false → qi.totalRows ≠ 0 → qi.processedRows + 1 < uint64Size →
        (Next qi).2.totalRows < (Next qi).2.processedRows) := by
  refine ⟨?_, ?_, ?_⟩
  · simp [HasNext]
  · simp [HasNext]
  · intro hn h0 hlt
    rw [Next_totalRows qi h0, Next_processedRows, Nat.mod_eq_of_lt hlt]
    have : qi.totalRows ≤ qi.processedRows := by simpa [HasNext] using hn
    omega

/-- C9 (witness): the state after two calls to `Next` on the two-row result,
where `processedRows = totalRows = 2`. -/
theorem C9_hasNext_iff_witness :
    Reachable (Next (Next twoRowStart).2).2 ∧
      (HasNext (Next (Next twoRowStart).2).2 = false ↔
        (Next (Next twoRowStart).2).2.totalRows ≤ (Next (Next twoRowStart).2).2.processedRows) ∧
      (HasNext (Next (Next twoRowStart).2).2 = true ↔
        (Next (Next twoRowStart).2).2.processedRows < (Next (Next twoRowStart).2).2.totalRows) ∧
      (HasNext (Next (Next twoRowStart).2).2 = false →
        (Next (Next twoRowStart).2).2.totalRows ≠ 0 →
        (Next (Next twoRowStart).2).2.processedRows + 1 < uint64Size →
        (Next (Next (Next twoRowStart).2).2).2.totalRows
          < (Next (Next (Next twoRowStart).2).2).2.processedRows) :=
  ⟨twoRow_reachable_two, C9_hasNext_iff _ twoRow_reachable_two⟩

/-- C9 (counterexample): three calls to `Next` on the two-row result all
return a row and reach a state where `HasNext` is false although
`processedRows = 3` differs from `totalRows = 2`. -/
theorem C9_hasNext_counterexample :
    Reachable (Next (Next (Next twoRowStart).2).2).2 ∧
      HasNext (Next (Next (Next twoRowStart).2).2).2 = false ∧
      (Next (Next (Next twoRowStart).2).2).2.processedRows = 3 ∧
      (Next (Next (Next twoRowStart).2).2).2.totalRows = 2 :=
  ⟨Reachable.next _ twoRow_reachable_two (fun p h => by rw [twoRow_third_next] at h; cases h),
    rfl, rfl, rfl⟩

/-- C10: every call to `Next`, whatever its outcome, leaves `processedRows`
one greater than before as a 64-bit unsigned counter; in particular a call that
fails with a fetch error has advanced the count. -/
theorem C10_next_advances_processedRows (qi : QueryIterator) :
    (Next qi).2.processedRows = (qi.processedRows + 1) % uint64Size ∧
      (qi.processedRows + 1 < uint64Size →
        (Next qi).2.processedRows = qi.processedRows + 1) ∧
      (∀ e, (Next qi).1 = .error e →
        (Next qi).2.processedRows = (qi.processedRows + 1) % uint64Size ∧
          ∀ values, (Next qi).1 ≠ .ok values) := by
  refine ⟨Next_processedRows qi, ?_, ?_⟩
  · intro hlt
    rw [Next_processedRows, Nat.mod_eq_of_lt hlt]
  · intro e he
    refine ⟨Next_processedRows qi, ?_⟩
    intro values h
    rw [he] at h
    cases h

/-- C10 (witness): over the service that fails after the first page, the
second call to `Next` crosses the page boundary, returns the fetch error and no
row, and has advanced `processedRows` from 1 to 2. -/
theorem C10_next_advances_processedRows_witness :
    NewQueryIterator flakyManager "q" = .ok flakyStart ∧
      (Next flakyStart).1 = .ok [strV "b"] ∧
      (Next (Next flakyStart).2).1 = .error { msg := "quota exceeded" } ∧
      (Next flakyStart).2.processedRows = 1 ∧
      (Next (Next flakyStart).2).2.processedRows = 2 :=
  ⟨rfl, rfl, rfl, (C10_next_advances_processedRows flakyStart).2.1 (by decide),
    (C10_next_advances_processedRows (Next flakyStart).2).2.1 (by decide)⟩

/-! ## Page fetches -/

theorem fetchPage_error (qi : QueryIterator) (e : GoError)
    (h : qi.service qi.calls (pageRequest qi) = .error e) :
    fetchPage qi = (some e, { qi with calls := qi.calls ++ [pageRequest qi] }) := by
  unfold pageRequest at h
  unfold fetchPage
  dsimp only
  rw [h]
  rfl

theorem fetchPage_ok (qi : QueryIterator) (r : GetQueryResultsResponse)
    (h : qi.service qi.calls (pageRequest qi) = .ok r) :
    (fetchPage qi).1 = none ∧
      (fetchPage qi).2.calls = qi.calls ++ [pageRequest qi] ∧
      (fetchPage qi).2.totalRows = (if qi.totalRows = 0 then r.TotalRows else qi.totalRows) ∧
      (fetchPage qi).2.schema = (if qi.schema.isNone then r.Schema else qi.schema) ∧
      (fetchPage qi).2.Rows = r.Rows ∧ (fetchPage qi).2.rowsIndex = 0 ∧
      (fetchPage qi).2.pageToken = r.PageToken ∧
      (fetchPage qi).2.jobCompleted = r.JobComplete ∧
      (fetchPage qi).2.processedRows = qi.processedRows := by
  unfold pageRequest at h
  unfold fetchPage pageRequest
  dsimp only
  rw [h]
  dsimp only
  by_cases h1 : qi.totalRows = 0 <;> by_cases h2 : qi.resultInfo.TotalRows = 0 <;>
    by_cases h3 : qi.schema.isNone = true <;> simp [h1, h2, h3]

theorem Next_of_cross (qi : QueryIterator)
    (hcross : toInt ((qi.rowsIndex + 1) % uint64Size) ≥ (qi.Rows.length : Int)) :
    Next qi =
      if (fetchPage (advance qi)).1.isSome then
        (Result.error ((fetchPage (advance qi)).1.getD { msg := "" }), (fetchPage (advance qi)).2)
      else (readRow (fetchPage (advance qi)).2, (fetchPage (advance qi)).2) := by
  unfold Next advance
  dsimp only
  rw [if_pos hcross]
  split
  · rename_i err q h
    simp [h]
  · rename_i q h
    simp [h]

theorem Next_of_inPage (qi : QueryIterator)
    (hin : ¬ toInt ((qi.rowsIndex + 1) % uint64Size) ≥ (qi.Rows.length : Int)) :
    Next qi = (readRow (advance qi), advance qi) := by
  unfold Next advance
  dsimp only
  rw [if_neg hin]

theorem NewQueryIterator_of_connected (manager : Manager) (query : String) (service : Service)
    (jobId : String) (hconn : manager.connect = .ok service)
    (hrun : manager.run query = .ok jobId) :
    NewQueryIterator manager query =
      if (fetchPage (initialIterator service manager jobId)).1.isSome then
        .error ((fetchPage (initialIterator service manager jobId)).1.getD { msg := "" })
      else .ok (fetchPage (initialIterator service manager jobId)).2 := by
  unfold NewQueryIterator initialIterator
  rw [hconn]
  dsimp only
  rw [hrun]
  dsimp only
  split
  · rename_i err q h
    simp [h]
  · rename_i q h
    simp [h]

theorem fetchPage_schema (qi : QueryIterator) (s : TableSchema) (h : qi.schema = some s) :
    (fetchPage qi).2.schema = some s := by
  cases hr : qi.service qi.calls (pageRequest qi) with
  | error e => rw [fetchPage_error qi e hr]; exact h
  | ok r =>
    have := (fetchPage_ok qi r hr).2.2.2.1
    rw [this, h]
    rfl

theorem Next_schema (qi : QueryIterator) (s : TableSchema) (h : qi.schema = some s) :
    (Next qi).2.schema = some s := by
  by_cases hcross : toInt ((qi.rowsIndex + 1) % uint64Size) ≥ (qi.Rows.length : Int)
  · rw [Next_of_cross qi hcross]
    have := fetchPage_schema (advance qi) s h
    split <;> exact this
  · rw [Next_of_inPage qi hcross]
    exact h

/-- C11: fetch errors are propagated verbatim and atomically.  Whenever `Next`
crosses a page boundary and the page request fails with error `e`, `Next`
makes exactly one request, returns `e` and no row, and leaves the held page,
the continuation token, the schema, `totalRows`, the completion flag and the
result metadata as they were. -/
theorem C11_fetch_error_atomic (qi : QueryIterator) (e : GoError)
    (hcross : toInt ((qi.rowsIndex + 1) % uint64Size) ≥ (qi.Rows.length : Int))
    (hfail : qi.service qi.calls (pageRequest qi) = .error e) :
    (Next qi).1 = .error e ∧
      (Next qi).2.calls = qi.calls ++ [pageRequest qi] ∧
      (Next qi).2.Rows = qi.Rows ∧ (Next qi).2.pageToken = qi.pageToken ∧
      (Next qi).2.schema = qi.schema ∧ (Next qi).2.totalRows = qi.totalRows ∧
      (Next qi).2.jobCompleted = qi.jobCompleted ∧ (Next qi).2.resultInfo = qi.resultInfo := by
  have hf : fetchPage (advance qi)
      = (some e, { advance qi with calls := (advance qi).calls ++ [pageRequest (advance qi)] }) :=
    fetchPage_error (advance qi) e hfail
  rw [Next_of_cross qi hcross, hf]
  exact ⟨rfl, rfl, rfl, rfl, rfl, rfl, rfl, rfl⟩

/-- C11 (witness): over the service that fails after the first page, the
second call to `Next` crosses the page boundary and its request fails. -/
theorem C11_fetch_error_atomic_witness :
    (Next (Next flakyStart).2).1 = .error { msg := "quota exceeded" } ∧
      (Next (Next flakyStart).2).2.calls
        = (Next flakyStart).2.calls ++ [pageRequest (Next flakyStart).2] ∧
      (Next (Next flakyStart).2).2.Rows = (Next flakyStart).2.Rows ∧
      (Next (Next flakyStart).2).2.pageToken = (Next flakyStart).2.pageToken ∧
      (Next (Next flakyStart).2).2.schema = (Next flakyStart).2.schema ∧
      (Next (Next flakyStart).2).2.totalRows = (Next flakyStart).2.totalRows ∧
      (Next (Next flakyStart).2).2.jobCompleted = (Next flakyStart).2.jobCompleted ∧
      (Next (Next flakyStart).2).2.resultInfo = (Next flakyStart).2.resultInfo :=
  C11_fetch_error_atomic (Next flakyStart).2 { msg := "quota exceeded" } (by decide) rfl

/-- C12: `GetColumns` fails exactly when no schema is held; otherwise it
returns one entry per top-level schema field, the i-th entry being the name of
the i-th field.  (`GetColumns` assigns to no field of the iterator, so it has no
state to return.) -/
theorem C12_getColumns (qi : QueryIterator) :
    ((∃ e, GetColumns qi = .error e) ↔ qi.schema = none) ∧
      (∀ schema, qi.schema = some schema →
        ∃ names, GetColumns qi = .ok names ∧ names.length = schema.Fields.length ∧
          ∀ (i : Nat) (hn : i < names.length) (hf : i < schema.Fields.length),
            names.get ⟨i, hn⟩ = (schema.Fields.get ⟨i, hf⟩).Name) := by
  refine ⟨?_, ?_⟩
  · cases h : qi.schema with
    | none => simp [GetColumns, h]
    | some schema => simp [GetColumns, h]
  · intro schema h
    refine ⟨schema.Fields.map TableFieldSchema.Name, ?_, ?_, ?_⟩
    · simp [GetColumns, h]
    · simp
    · intro i hn hf
      simp

theorem NewQueryIterator_of_first_page (manager : Manager) (query : String) (service : Service)
    (jobId : String) (resp : GetQueryResultsResponse)
    (hconn : manager.connect = .ok service) (hrun : manager.run query = .ok jobId)
    (hresp : service [] (firstRequest manager jobId) = .ok resp) :
    NewQueryIterator manager query = .ok (fetchPage (initialIterator service manager jobId)).2 ∧
      (fetchPage (initialIterator service manager jobId)).2.totalRows = resp.TotalRows ∧
      (fetchPage (initialIterator service manager jobId)).2.schema = resp.Schema ∧
      (fetchPage (initialIterator service manager jobId)).2.processedRows = 0 := by
  have h := fetchPage_ok (initialIterator service manager jobId) resp hresp
  refine ⟨?_, ?_, ?_, ?_⟩
  · rw [NewQueryIterator_of_connected manager query service jobId hconn hrun, h.1]
    rfl
  · rw [h.2.2.1]
    rfl
  · rw [h.2.2.2.1]
    rfl
  · rw [h.2.2.2.2.2.2.2.2]
    rfl

/-- C13: empty-result scenario.  When the first page response reports
`jobComplete = true`, `totalRows = 0`, an empty continuation token and zero
rows, construction succeeds, `HasNext` is false right after construction, and
when the response carried a schema `GetColumns` returns its field names. -/
theorem C13_empty_result (manager : Manager) (query : String) (service : Service)
    (jobId : String) (resp : GetQueryResultsResponse)
    (hconn : manager.connect = .ok service) (hrun : manager.run query = .ok jobId)
    (hresp : service [] (firstRequest manager jobId) = .ok resp)
    (_hcomplete : resp.JobComplete = true) (htotal : resp.TotalRows = 0)
    (_htoken : resp.PageToken = "") (_hrows : resp.Rows = []) :
    ∃ qi, NewQueryIterator manager query = .ok qi ∧ HasNext qi = false ∧
      ∀ schema, resp.Schema = some schema →
        GetColumns qi = .ok (schema.Fields.map TableFieldSchema.Name) := by
  obtain ⟨hnew, htot, hschema, hproc⟩ :=
    NewQueryIterator_of_first_page manager query service jobId resp hconn hrun hresp
  refine ⟨_, hnew, ?_, ?_⟩
  · simp [HasNext, htot, htotal]
  · intro schema hs
    simp [GetColumns, hschema, hs]

/-- C13 (witness): the service answering `emptyPage`, whose schema has the
single column `c`. -/
theorem C13_empty_result_witness :
    ∃ qi, NewQueryIterator emptyManager "q" = .ok qi ∧ HasNext qi = false ∧
      ∀ schema, emptyPage.Schema = some schema →
        GetColumns qi = .ok (schema.Fields.map TableFieldSchema.Name) :=
  C13_empty_result emptyManager "q" (fun _ _ => .ok emptyPage) "job" emptyPage rfl rfl rfl
    rfl rfl rfl rfl

/-- C16: the schema is set once.  In a state that holds a schema, every page
fetch, successful or failed and whatever schema the response carries, and
every call to `Next` leave the schema as it is (`HasNext` and `GetColumns`
assign to nothing); a response's schema is adopted exactly while none is held,
and a failed fetch adopts nothing. -/
theorem C16_schema_set_once (qi : QueryIterator) (s : TableSchema) (h : qi.schema = some s) :
    (fetchPage qi).2.schema = some s ∧ (Next qi).2.schema = some s ∧
      (∀ (q : QueryIterator) (r : GetQueryResultsResponse), q.schema = none →
        q.service q.calls (pageRequest q) = .ok r → (fetchPage q).2.schema = r.Schema) ∧
      (∀ (q : QueryIterator) (e : GoError),
        q.service q.calls (pageRequest q) = .error e → (fetchPage q).2.schema = q.schema) := by
  refine ⟨fetchPage_schema qi s h, Next_schema qi s h, ?_, ?_⟩
  · intro q r hq hr
    rw [(fetchPage_ok q r hr).2.2.2.1, hq]
    rfl
  · intro q e he
    rw [fetchPage_error q e he]

/-- C16 (witness): the iterator over the service whose page carries the
two-column schema, started with the one-column schema already held. -/
theorem C16_schema_set_once_witness :
    (fetchPage { shortRowStart with schema := some oneColumn }).2.schema = some oneColumn ∧
      (Next { shortRowStart with schema := some oneColumn }).2.schema = some oneColumn ∧
      (∀ (q : QueryIterator) (r : GetQueryResultsResponse), q.schema = none →
        q.service q.calls (pageRequest q) = .ok r → (fetchPage q).2.schema = r.Schema) ∧
      (∀ (q : QueryIterator) (e : GoError),
        q.service q.calls (pageRequest q) = .error e → (fetchPage q).2.schema = q.schema) :=
  C16_schema_set_once { shortRowStart with schema := some oneColumn } oneColumn rfl

/-- C17 (as amended): after construction `totalRows` equals the total-row
count of the first page response; a later successful page fetch leaves it as it
is once it is nonzero, and sets it to the count its response reports while it
is zero. -/
theorem C17_totalRows_latched (manager : Manager) (query : String) (service : Service)
    (jobId : String) (resp : GetQueryResultsResponse)
    (hconn : manager.connect = .ok service) (hrun : manager.run query = .ok jobId)
    (hresp : service [] (firstRequest manager jobId) = .ok resp) :
    (∃ qi, NewQueryIterator manager query = .ok qi ∧ qi.totalRows = resp.TotalRows) ∧
      (∀ (q : QueryIterator) (r : GetQueryResultsResponse),
        q.service q.calls (pageRequest q) = .ok r → q.totalRows ≠ 0 →
        (fetchPage q).2.totalRows = q.totalRows) ∧
      (∀ (q : QueryIterator) (r : GetQueryResultsResponse),
        q.service q.calls (pageRequest q) = .ok r → q.totalRows = 0 →
        (fetchPage q).2.totalRows = r.TotalRows) := by
  obtain ⟨hnew, htot, _, _⟩ :=
    NewQueryIterator_of_first_page manager query service jobId resp hconn hrun hresp
  refine ⟨⟨_, hnew, htot⟩, ?_, ?_⟩
  · intro q r hr hne
    rw [(fetchPage_ok q r hr).2.2.1, if_neg hne]
  · intro q r hr h0
    rw [(fetchPage_ok q r hr).2.2.1, if_pos h0]

/-- C17 (witness): construction over the two-row result, whose first
response reports two rows. -/
theorem C17_totalRows_latched_witness :
    (∃ qi, NewQueryIterator twoRowManager "q" = .ok qi ∧ qi.totalRows = twoRowPage.TotalRows) ∧
      (∀ (q : QueryIterator) (r : GetQueryResultsResponse),
        q.service q.calls (pageRequest q) = .ok r → q.totalRows ≠ 0 →
        (fetchPage q).2.totalRows = q.totalRows) ∧
      (∀ (q : QueryIterator) (r : GetQueryResultsResponse),
        q.service q.calls (pageRequest q) = .ok r → q.totalRows = 0 →
        (fetchPage q).2.totalRows = r.TotalRows) :=
  C17_totalRows_latched twoRowManager "q" twoRowService "job" twoRowPage rfl rfl rfl

/-- C17 (counterexample): the first response reports a total of 0 rows, so
construction leaves `totalRows = 0`; the next successful page fetch, whose
response reports 2 rows, changes `totalRows` to 2. -/
theorem C17_totalRows_counterexample :
    NewQueryIterator lateCountManager "q" = .ok lateCountStart ∧
      lateCountStart.totalRows = pendingPage.TotalRows ∧
      (fetchPage lateCountStart).1 = none ∧
      (fetchPage lateCountStart).2.totalRows = 2 ∧
      (fetchPage lateCountStart).2.totalRows ≠ lateCountStart.totalRows :=
  ⟨rfl, rfl, rfl, rfl, by decide⟩

/-! ## Rows returned by `Next` -/

theorem decodeCells_ok_length (cells : List TableCell) :
    ∀ (fields : List TableFieldSchema) (i : Nat) (acc values : List Value),
      i ≤ fields.length → decodeCells cells fields i acc = .ok values →
      values.length = acc.length + cells.length ∧ i + cells.length ≤ fields.length := by
  induction cells with
  | nil =>
    intro fields i acc values hle h
    rw [decodeCells] at h
    cases h
    exact ⟨by simp, by simpa using hle⟩
  | cons c cs ih =>
    intro fields i acc values _ h
    rw [decodeCells] at h
    cases hfi : fields.get? i with
    | none => rw [hfi] at h; cases h
    | some f0 =>
      rw [hfi] at h
      dsimp only at h
      have hi : i < fields.length := by
        by_contra hge
        have : fields.get? i = none := List.get?_eq_none.mpr (Nat.le_of_not_lt hge)
        rw [this] at hfi
        cases hfi
      cases hdec : toValue c.V f0 with
      | error p => rw [hdec] at h; cases h
      | ok v =>
        rw [hdec] at h
        dsimp only at h
        have := ih fields (i + 1) (acc ++ [v]) values hi h
        rw [List.length_append, List.length_singleton] at this
        rw [List.length_cons]
        omega

theorem readRow_ok (qi : QueryIterator) (values : List Value) (h : readRow qi = .ok values) :
    ∃ row schema, qi.Rows.get? qi.rowsIndex = some row ∧ qi.schema = some schema ∧
      decodeCells row.F schema.Fields 0 [] = .ok values := by
  unfold readRow at h
  cases hrow : qi.Rows.get? qi.rowsIndex with
  | none => rw [hrow] at h; cases h
  | some row =>
    rw [hrow] at h
    dsimp only at h
    cases hs : qi.schema with
    | none => rw [hs] at h; cases h
    | some schema =>
      rw [hs] at h
      dsimp only at h
      cases hd : decodeCells row.F schema.Fields 0 [] with
      | error p => rw [hd] at h; cases h
      | ok vs =>
        rw [hd] at h
        cases h
        exact ⟨row, schema, rfl, rfl, hd⟩

/-- C14 (as amended): for every call to `Next` that returns a row, the length
of the returned sequence equals the number of cells of the row read, which is
at most the number of top-level fields of the schema held; the length equals
the number of fields when the row holds one cell per field. -/
theorem C14_row_length (qi : QueryIterator) (values : List Value)
    (h : (Next qi).1 = .ok values) :
    ∃ row schema, (Next qi).2.Rows.get? (Next qi).2.rowsIndex = some row ∧
      (Next qi).2.schema = some schema ∧
      values.length = row.F.length ∧ row.F.length ≤ schema.Fields.length ∧
      (row.F.length = schema.Fields.length → values.length = schema.Fields.length) := by
  rcases Next_cases qi with ⟨e, he⟩ | hr
  · rw [he] at h
    cases h
  · rw [hr] at h
    obtain ⟨row, schema, hrow, hschema, hd⟩ := readRow_ok _ values h
    have hl := decodeCells_ok_length row.F schema.Fields 0 [] values (Nat.zero_le _) hd
    refine ⟨row, schema, hrow, hschema, ?_, ?_, ?_⟩
    · simpa using hl.1
    · simpa using hl.2
    · intro heq
      rw [← heq]
      simpa using hl.1

/-- C14 (witness): the first call to `Next` on the two-row result. -/
theorem C14_row_length_witness :
    ∃ row schema,
      (Next twoRowStart).2.Rows.get? (Next twoRowStart).2.rowsIndex = some row ∧
      (Next twoRowStart).2.schema = some schema ∧
      [strV "b"].length = row.F.length ∧ row.F.length ≤ schema.Fields.length ∧
      (row.F.length = schema.Fields.length → [strV "b"].length = schema.Fields.length) :=
  C14_row_length twoRowStart [strV "b"] rfl

/-- C14 (counterexample): under the schema with the two columns `c` and `d`,
a row holding one cell makes `Next` return a sequence of length one. -/
theorem C14_row_length_counterexample :
    NewQueryIterator shortRowManager "q" = .ok shortRowStart ∧
      (Next shortRowStart).1 = .ok [strV "b"] ∧
      (Next shortRowStart).2.schema = some twoColumns ∧
      twoColumns.Fields.length = 2 ∧ [strV "b"].length ≠ twoColumns.Fields.length :=
  ⟨rfl, rfl, rfl, rfl, by decide⟩

/-- C15 (evaluation at the failing input): constructed over a page that
holds rows and carries no schema, the iterator holds no schema and `Next`
aborts on the nil schema; constructed over the response of a job that has not
completed, it holds no schema either and `Next` aborts on the empty page.  In
neither case is an error returned. -/
theorem C15_no_schema_aborts :
    NewQueryIterator noSchemaManager "q" = .ok noSchemaStart ∧
      noSchemaStart.schema = none ∧
      (Next noSchemaStart).1 = .panic Panic.nilDereference ∧
      NewQueryIterator pendingManager "q" = .ok pendingStart ∧
      pendingStart.schema = none ∧ (Next pendingStart).2.schema = none ∧
      (Next pendingStart).1 = .panic Panic.indexOutOfRange :=
  ⟨rfl, rfl, rfl, rfl, rfl, rfl, rfl⟩

/-- C18 (evaluation at the failing input): on a result of three rows whose
second page holds no row, the second call to `Next` is made while `HasNext` is
true, crosses the page boundary, fetches the empty page with success and then
reads the row at index 0 of that empty page, an out-of-range access. -/
theorem C18_zero_row_page_aborts :
    NewQueryIterator zeroRowManager "q" = .ok zeroRowStart ∧
      (Next zeroRowStart).1 = .ok [strV "b"] ∧
      HasNext (Next zeroRowStart).2 = true ∧
      (Next (Next zeroRowStart).2).1 = .panic Panic.indexOutOfRange ∧
      (Next (Next zeroRowStart).2).2.Rows = [] ∧
      (Next (Next zeroRowStart).2).2.rowsIndex = 0 ∧
      (Next (Next zeroRowStart).2).2.calls.map (fun r => r.pageToken) = ["", "t1"] :=
  ⟨rfl, rfl, rfl, rfl, rfl, rfl, rfl⟩

/-- C20: `toValue` and `unwrapValueIfNeeded` are the same function: on every
wire value and field descriptor they return the same result and abort in
exactly the same cases, with the same panic. -/
theorem C20_toValue_is_unwrap (value : Value) (field : TableFieldSchema) :
    toValue value field = unwrapValueIfNeeded value field ∧
      (∀ p, toValue value field = .error p ↔ unwrapValueIfNeeded value field = .error p) ∧
      (∀ v, toValue value field = .ok v ↔ unwrapValueIfNeeded value field = .ok v) := by
  have h := toValue_eq_unwrap value field
  refine ⟨h, ?_, ?_⟩
  · intro p
    rw [h]
  · intro v
    rw [h]

/-! ## Recursion depth -/

theorem unwrapDepth_lit (a : Atom) (field : TableFieldSchema) :
    unwrapDepth (.lit a) field = 0 := by
  rw [unwrapDepth]

theorem unwrapDepth_slice (xs : List Value) (field : TableFieldSchema) :
    unwrapDepth (.slice xs) field = unwrapSliceDepth xs field := by
  rw [unwrapDepth]

theorem unwrapSliceDepth_nil (field : TableFieldSchema) : unwrapSliceDepth [] field = 0 := by
  rw [unwrapSliceDepth]

theorem unwrapSliceDepth_cons_le (x : Value) (xs : List Value) (field : TableFieldSchema) (N : Nat)
    (hx : unwrapDepth x field + 1 ≤ N) (hxs : unwrapSliceDepth xs field ≤ N) :
    unwrapSliceDepth (x :: xs) field ≤ N := by
  rw [unwrapSliceDepth]
  split
  · exact hx
  · exact max_le hx hxs

theorem unwrapSliceDepth_singleton (x : Value) (field : TableFieldSchema) :
    unwrapSliceDepth [x] field = unwrapDepth x field + 1 := by
  rw [unwrapSliceDepth]
  split
  · rfl
  · rw [unwrapSliceDepth_nil]
    simp

theorem processFieldsDepth_nil (children : List TableFieldSchema) (index : Nat) :
    processFieldsDepth [] children index = 0 := by
  rw [processFieldsDepth]

theorem processFieldsDepth_cons_le (x : Value) (xs : List Value)
    (children : List TableFieldSchema) (index N : Nat)
    (hx : ∀ child, unwrapDepth x child + 1 ≤ N)
    (hxs : processFieldsDepth xs children (index + 1) ≤ N) :
    processFieldsDepth (x :: xs) children index ≤ N := by
  rw [processFieldsDepth]
  split
  · exact Nat.zero_le _
  · split
    · exact hx _
    · exact max_le (hx _) hxs

theorem unwrapDepth_map_le (m : List (String × Value)) (field : TableFieldSchema) (N : Nat)
    (hv : ∀ w, mapGet "v" m = some w → unwrapDepth w field + 1 ≤ N)
    (hf : ∀ items children, mapGet "f" m = some (.slice items) →
      processFieldsDepth items children 0 ≤ N) :
    unwrapDepth (.map m) field ≤ N := by
  rw [unwrapDepth]
  split
  · rename_i w h
    split
    · exact hv w h
    · exact Nat.zero_le _
  · split
    · rename_i fv h
      split
      · split
        · exact hf _ _ h
        · exact Nat.zero_le _
      · exact Nat.zero_le _
    · exact Nat.zero_le _

theorem mapGet_nesting_le (key : String) (m : List (String × Value)) (w : Value)
    (h : mapGet key m = some w) : w.nesting ≤ nestingEntries m := by
  induction m with
  | nil => simp [mapGet] at h
  | cons e rest ih =>
    obtain ⟨k, v⟩ := e
    simp only [mapGet] at h
    rw [nestingEntries]
    split at h
    · cases h
      exact le_max_left _ _
    · exact le_trans (ih h) (le_max_right _ _)

theorem unwrapDepth_le_aux (n : Nat) :
    (∀ v : Value, sizeOf v < n → ∀ field, unwrapDepth v field ≤ v.nesting) ∧
      (∀ xs : List Value, sizeOf xs < n →
        (∀ field, unwrapSliceDepth xs field ≤ nestingList xs + 1) ∧
        (∀ children index, processFieldsDepth xs children index ≤ nestingList xs + 1)) := by
  induction n with
  | zero => exact ⟨fun v h => absurd h (Nat.not_lt_zero _), fun xs h => absurd h (Nat.not_lt_zero _)⟩
  | succ n ih =>
    refine ⟨?_, ?_⟩
    · intro v hsize field
      cases v with
      | lit a => rw [unwrapDepth_lit]; exact Nat.zero_le _
      | slice xs =>
        rw [unwrapDepth_slice, Value.nesting]
        have hxs : sizeOf xs < n := by
          simp only [Value.slice.sizeOf_spec] at hsize
          omega
        exact (ih.2 xs hxs).1 field
      | map m =>
        rw [Value.nesting]
        apply unwrapDepth_map_le
        · intro w hw
          have hlt := mapGet_sizeOf_lt hw
          have := ih.1 w (by omega) field
          have := mapGet_nesting_le "v" m w hw
          omega
        · intro items children hitems
          have hlt := mapGet_sizeOf_lt hitems
          have hsz : sizeOf items < n := by
            simp only [Value.slice.sizeOf_spec] at hlt
            omega
          have h1 := (ih.2 items hsz).2 children 0
          have h2 := mapGet_nesting_le "f" m _ hitems
          rw [Value.nesting] at h2
          omega
    · intro xs hsize
      cases xs with
      | nil =>
        refine ⟨fun field => ?_, fun children index => ?_⟩
        · rw [unwrapSliceDepth_nil]; exact Nat.zero_le _
        · rw [processFieldsDepth_nil]; exact Nat.zero_le _
      | cons x rest =>
        have hx : sizeOf x < n := by
          simp only [List.cons.sizeOf_spec] at hsize
          omega
        have hrest : sizeOf rest < n := by
          simp only [List.cons.sizeOf_spec] at hsize
          omega
        have hmx : x.nesting ≤ nestingList (x :: rest) := by
          rw [nestingList]; exact le_max_left _ _
        have hmr : nestingList rest ≤ nestingList (x :: rest) := by
          rw [nestingList]; exact le_max_right _ _
        refine ⟨fun field => ?_, fun children index => ?_⟩
        · apply unwrapSliceDepth_cons_le
          · have := ih.1 x hx field
            omega
          · have := (ih.2 rest hrest).1 field
            omega
        · apply processFieldsDepth_cons_le
          · intro child
            have := ih.1 x hx child
            omega
          · have := (ih.2 rest hrest).2 children (index + 1)
            omega

theorem unwrapDepth_nestedSlices (field : TableFieldSchema) (n : Nat) :
    unwrapDepth (nestedSlices n) field = n := by
  induction n with
  | zero => rw [nestedSlices, unwrapDepth_lit]
  | succ n ih => rw [nestedSlices, unwrapDepth_slice, unwrapSliceDepth_singleton, ih]

/-- C19 (as amended): the recursion of the decoder is bounded by the nesting
of the wire value, not by the schema.  For every wire value and every field
descriptor the depth of nested recursive calls of `unwrapValueIfNeeded` is at
most the nesting depth of the wire value, and under every descriptor a value
made of `n` nested sequences makes the recursion `n` deep. -/
theorem C19_depth_bounded_by_value (value : Value) (field : TableFieldSchema) :
    unwrapDepth value field ≤ value.nesting ∧
      ∀ n, unwrapDepth (nestedSlices n) field = n :=
  ⟨(unwrapDepth_le_aux (sizeOf value + 1)).1 value (Nat.lt_succ_self _) field,
    unwrapDepth_nestedSlices field⟩

/-- C19 (counterexample): under the childless descriptor `city` no bound holds
for all wire values: `n` nested sequences make the recursion `n` deep. -/
theorem C19_no_schema_bound :
    ¬ ∃ bound : Nat, ∀ value : Value, unwrapDepth value cityField ≤ bound := by
  rintro ⟨bound, h⟩
  have := h (nestedSlices (bound + 1))
  rw [unwrapDepth_nestedSlices] at this
  omega

end Bgc
